import Mathlib

/-!
Spotify-Clone browser player: a shallow embedding of `src/script.js`

The player scrapes directory listings (anchor `href`s) into album and song
lists and keeps a small playlist state (`songs`, `currentAlbum`,
`currentIndex`) consistent with one audio element.

Modelling conventions

* JavaScript strings are lists of Unicode scalar values (`Str`).  Every string
  the player handles comes out of the HTML parser or out of
  `decodeURIComponent`, neither of which produces lone surrogates.
* JavaScript numbers that index the playlist are integers (`Int`); `%` is the
  truncating remainder `Int.tmod`.  The argument of `formatTime` is a decimal,
  `NaN`, an infinity or `undefined` (`JsNum`).
* A thrown exception is `none`; the `try`/`catch` blocks of the source are the
  `match` on that `Option`.
* The network and the browser are inputs: the outcome of a `fetch`, the anchors
  the HTML parser finds in a body, and whether `audio.play()` is allowed.
-/

namespace SpotifyClone

/-- JavaScript string: a sequence of Unicode scalar values. -/
abbrev Str := List Char

/-! ## Built-in string functions -/

/-- The two characters of the regular expression `/[/\\]/` in `lastPathSegment`:
slash (U+002F) and backslash (U+005C). -/
def isPathSep (c : Char) : Bool := c == '/' || c == Char.ofNat 92

/-- The method `String.prototype.toLowerCase`, on the ASCII letters.  No non-ASCII
character lower-cases to one of `.`, `m`, `p`, `3`, so the only use the player
makes of it, `toLowerCase().endsWith(".mp3")`, is not affected. -/
def toLowerCase (s : Str) : Str := s.map Char.toLower

/-- The method `String.prototype.endsWith`. -/
def endsWith (s suffix : Str) : Bool := suffix.isSuffixOf s

/-- The test `x.toLowerCase().endsWith(".mp3")` of lines 57 and 155. -/
def hasMp3Suffix (s : Str) : Bool := endsWith (toLowerCase s) ".mp3".toList

/-- The method `String.prototype.split` with a separator that matches exactly one character:
the pieces between separators, empty pieces included; the empty string splits
into one empty piece. -/
def split (isSep : Char → Bool) : Str → List Str
  | [] => [[]]
  | c :: cs =>
    if isSep c then [] :: split isSep cs
    else
      match split isSep cs with
      | [] => [[c]]
      | seg :: segs => (c :: seg) :: segs

/-- Value of a hexadecimal digit (`ParseHexOctet` of ECMA-262 reads two). -/
def hexVal (c : Char) : Option Nat :=
  if '0' ≤ c ∧ c ≤ '9' then some (c.toNat - 48)
  else if 'a' ≤ c ∧ c ≤ 'f' then some (c.toNat - 87)
  else if 'A' ≤ c ∧ c ≤ 'F' then some (c.toNat - 55)
  else none

/-- What the `Decode` loop of ECMA-262 reads at one position: a code unit taken
as it is, or the octet of a `%XY` escape. -/
inductive Tok where
  | lit (c : Char)
  | oct (b : Nat)
  deriving DecidableEq, Repr

/-- First half of `Decode` (ECMA-262, 19.2.6.6): every `%` must be followed by two
hexadecimal digits, otherwise a `URIError` is thrown (`none`). -/
def unescape : Str → Option (List Tok)
  | [] => some []
  | c :: rest =>
    if c = '%' then
      match rest with
      | h1 :: h2 :: rest2 =>
        match hexVal h1, hexVal h2 with
        | some a, some b => (unescape rest2).map (Tok.oct (16 * a + b) :: ·)
        | _, _ => none
      | _ => none
    else (unescape rest).map (Tok.lit c :: ·)

/-- A UTF-8 continuation octet `10xxxxxx`. -/
def isCont (b : Nat) : Bool := decide (128 ≤ b) && decide (b < 192)

/-- The code point of a two-octet UTF-8 sequence, `none` when it is not valid
(bad continuation octet or overlong form). -/
def scalar2 (b0 b1 : Nat) : Option Char :=
  let v := (b0 - 192) * 64 + (b1 - 128)
  if isCont b1 ∧ 128 ≤ v then some (Char.ofNat v) else none

/-- The code point of a three-octet UTF-8 sequence, `none` when it is not valid
(bad continuation octet, overlong form, or a surrogate). -/
def scalar3 (b0 b1 b2 : Nat) : Option Char :=
  let v := (b0 - 224) * 4096 + (b1 - 128) * 64 + (b2 - 128)
  if isCont b1 ∧ isCont b2 ∧ 2048 ≤ v ∧ ¬ (55296 ≤ v ∧ v ≤ 57343) then some (Char.ofNat v)
  else none

/-- The code point of a four-octet UTF-8 sequence, `none` when it is not valid
(bad continuation octet, overlong form, or above U+10FFFF). -/
def scalar4 (b0 b1 b2 b3 : Nat) : Option Char :=
  let v := (b0 - 240) * 262144 + (b1 - 128) * 4096 + (b2 - 128) * 64 + (b3 - 128)
  if isCont b1 ∧ isCont b2 ∧ isCont b3 ∧ 65536 ≤ v ∧ v ≤ 1114111 then some (Char.ofNat v)
  else none

/-- Second half of `Decode`: an octet below 0x80 is its ASCII character; a lead
octet with `n` leading one bits (`n` = 2, 3, 4) must be followed at once by
`n - 1` further escapes and the `n` octets must be valid UTF-8; anything else
throws a `URIError` (`none`). -/
def utf8Decode : List Tok → Option Str
  | [] => some []
  | Tok.lit c :: ts => (utf8Decode ts).map (c :: ·)
  | Tok.oct b :: ts =>
    if b < 128 then (utf8Decode ts).map (Char.ofNat b :: ·)
    else if b < 192 then none
    else if b < 224 then
      match ts with
      | Tok.oct b1 :: ts1 =>
        match scalar2 b b1 with
        | some v => (utf8Decode ts1).map (v :: ·)
        | none => none
      | _ => none
    else if b < 240 then
      match ts with
      | Tok.oct b1 :: Tok.oct b2 :: ts2 =>
        match scalar3 b b1 b2 with
        | some v => (utf8Decode ts2).map (v :: ·)
        | none => none
      | _ => none
    else if b < 248 then
      match ts with
      | Tok.oct b1 :: Tok.oct b2 :: Tok.oct b3 :: ts3 =>
        match scalar4 b b1 b2 b3 with
        | some v => (utf8Decode ts3).map (v :: ·)
        | none => none
      | _ => none
    else none

/-- The built-in `decodeURIComponent` (ECMA-262 `Decode` with an empty set of
preserved escapes).  `none` is the thrown `URIError`.  The loop of the standard
reads escapes and decodes UTF-8 in one pass; reading all escapes first gives
the same result, because an escape always starts where the previous token
ended and any failure, early or late, is the same `URIError`. -/
def decodeURIComponent (s : Str) : Option Str :=
  match unescape s with
  | none => none
  | some ts => utf8Decode ts

/-- The characters `encodeURIComponent` leaves alone: ASCII letters, digits and
`- _ . ! ~ * ' ( )`. -/
def isUnreserved (c : Char) : Bool :=
  c.isAlphanum || c ∈ ['-', '_', '.', '!', '~', '*', Char.ofNat 39, '(', ')']

/-- UTF-8 octets of a code point. -/
def utf8Encode (v : Nat) : List Nat :=
  if v < 128 then [v]
  else if v < 2048 then [192 + v / 64, 128 + v % 64]
  else if v < 65536 then [224 + v / 4096, 128 + v / 64 % 64, 128 + v % 64]
  else [240 + v / 262144, 128 + v / 4096 % 64, 128 + v / 64 % 64, 128 + v % 64]

/-- Upper-case hexadecimal digit of a value below 16. -/
def hexDigit (n : Nat) : Char := if n < 10 then Char.ofNat (48 + n) else Char.ofNat (55 + n)

/-- One octet as a `%XY` escape. -/
def percentOctet (b : Nat) : Str := ['%', hexDigit (b / 16), hexDigit (b % 16)]

/-- The built-in `encodeURIComponent`.  It throws only on lone surrogates, which
`Str` does not contain. -/
def encodeURIComponent : Str → Str
  | [] => []
  | c :: cs =>
    (if isUnreserved c then [c] else (utf8Encode c.toNat).foldr (fun b acc => percentOctet b ++ acc) [])
      ++ encodeURIComponent cs

/-! ## Listing parser (`script.js`, lines 34-67 and 140-162) -/

/-- Lines 34-39 of `script.js`, `lastPathSegment(rawHref)`: the last non-empty piece of the
percent-decoded href split on `/` and `\`, or `""` when there is none.  `none`
when `decodeURIComponent` throws. -/
def lastPathSegment (rawHref : Str) : Option Str :=
  if rawHref = [] then some []
  else
    match decodeURIComponent rawHref with
    | none => none
    | some decoded =>
      let parts := (split isPathSep decoded).filter (fun p => p ≠ [])
      some (if parts.length ≠ 0 then parts.getLastD [] else [])

/-- Result of `fetch(url)` followed by reading the body: the promise rejects
(network error), or a response arrives with an HTTP status and a body.  For a
listing the body is given by what `div.innerHTML = html;
div.getElementsByTagName("a")` finds in it: the `href` attribute of every
anchor in document order (`none` for an anchor without the attribute). -/
inductive Fetched (β : Type) where
  | networkError
  | response (status : Nat) (body : β)
  deriving DecidableEq, Repr

/-- The `ok` flag of a response: status in the range 200-299. -/
def Fetched.ok (status : Nat) : Bool := decide (200 ≤ status) && decide (status ≤ 299)

/-- Anchors of a listing document. -/
abbrev Anchors := List (Option Str)

/-- The method `Set.prototype.add` on the insertion-ordered contents of a `Set`. -/
def setAdd (acc : List Str) (x : Str) : List Str := if x ∈ acc then acc else acc ++ [x]

/-- The expression `Array.from(new Set(list))` of line 62: first occurrences, in order. -/
def arrayFromSet (list : List Str) : List Str := list.foldl setAdd []

/-- The loop of lines 51-60 in `fetchAlbumFolders`, from the anchors still to
visit; `none` when `lastPathSegment` throws. -/
def collectFolders : Anchors → Option (List Str)
  | [] => some []
  | none :: rest => collectFolders rest
  | some href :: rest =>
    if href = [] ∨ href = "../".toList then collectFolders rest
    else
      match lastPathSegment href with
      | none => none
      | some candidate =>
        if ¬ hasMp3Suffix candidate ∧ candidate ≠ [] then
          (collectFolders rest).map (candidate :: ·)
        else collectFolders rest

/-- Lines 42-67 of `script.js`, `fetchAlbumFolders()`.  The status of the response is not
looked at; the `catch` returns `[]`. -/
def fetchAlbumFolders (r : Fetched Anchors) : List Str :=
  match r with
  | .networkError => []
  | .response _ anchors =>
    match collectFolders anchors with
    | none => []
    | some list => arrayFromSet list

/-- A value read from parsed JSON, as far as `||` tells values apart. -/
inductive JsVal where
  | undefined
  | null
  | bool (b : Bool)
  | num (n : Int)
  | str (s : Str)
  | object
  deriving DecidableEq, Repr

/-- JavaScript truthiness (`ToBoolean`). -/
def JsVal.truthy : JsVal → Bool
  | .undefined => false
  | .null => false
  | .bool b => b
  | .num n => n ≠ 0
  | .str s => s ≠ []
  | .object => true

/-- The operator `a || b`. -/
def JsVal.or (a b : JsVal) : JsVal := if a.truthy then a else b

/-- Body of the `info.json` response as `res.json()` sees it: not JSON (the
promise rejects), the JSON value `null` (reading a property of it throws), or
any other value with what `data.title` and `data.description` evaluate to. -/
inductive Descriptor where
  | invalid
  | null
  | value (title description : JsVal)
  deriving DecidableEq, Repr

/-- Album metadata `{ title, description }`. -/
structure Metadata where
  title : JsVal
  description : JsVal
  deriving DecidableEq, Repr

/-- Lines 69-83 of `script.js`, `fetchAlbumMetadata(folder)`. -/
def fetchAlbumMetadata (folder : Str) (r : Fetched Descriptor) : Metadata :=
  match r with
  | .networkError => { title := .str folder, description := .str [] }
  | .response status body =>
    if ¬ Fetched.ok status then { title := .str folder, description := .str [] }
    else
      match body with
      | .invalid => { title := .str folder, description := .str [] }
      | .null => { title := .str folder, description := .str [] }
      | .value t d => { title := t.or (.str folder), description := d.or (.str []) }

/-! ## Playlist state and player actions (`script.js`, lines 140-271) -/

/-- An entry of `songs`: `{ decoded, encoded }`. -/
structure Song where
  decoded : Str
  encoded : Str
  deriving DecidableEq, Repr

/-- The part of the global `audio` element the player depends on. -/
structure Audio where
  src : Str
  paused : Bool
  deriving DecidableEq, Repr

/-- The DOM elements the player actions write to.  A field is `none` when
`safeQuery` finds no such element, and every write to it is then skipped. -/
structure Page where
  /-- Property `textContent` of `.songinfo`. -/
  songinfo : Option Str
  /-- Property `textContent` of `.songtime`. -/
  songtime : Option Str
  /-- Property `src` of the play/pause image in `.songbuttons`. -/
  playImg : Option Str
  deriving DecidableEq, Repr

/-- The globals of lines 15-19 together with the page. -/
structure Player where
  songs : List Song
  currentAlbum : Str
  currentIndex : Int
  audio : Audio
  page : Page
  deriving DecidableEq, Repr

/-- Whether the browser lets `audio.play()` start playback, or rejects the
promise (autoplay blocked) and leaves the element paused. -/
inductive PlayOutcome where
  | started
  | rejected
  deriving DecidableEq, Repr

/-- The constant `AUDIO_BASE_PATH` of line 13. -/
def AUDIO_BASE_PATH : Str := "http://127.0.0.1:3000/spotify/music/".toList

/-- Icon written by `setPlayButtonPause`: shown while playing. -/
def pauseIcon : Str := "/spotify/svg/pause.svg".toList

/-- Icon written by `setPlayButtonPlay`: shown while paused. -/
def playIcon : Str := "/spotify/svg/play-circle.svg".toList

/-- The globals as the script initialises them, on a given page. -/
def initial (page : Page) : Player :=
  { songs := [], currentAlbum := [], currentIndex := 0,
    audio := { src := [], paused := true }, page := page }

/-- Lines 237-242 of `script.js`, `updateSongInfo(item)`. -/
def updateSongInfo (s : Player) (item : Option Song) : Player :=
  { s with page :=
      { s.page with
        songinfo := s.page.songinfo.map (fun _ => match item with
          | some it => it.decoded
          | none => [])
        songtime := s.page.songtime.map (fun _ => "00:00 / 00:00".toList) } }

/-- Lines 264-267 of `script.js`, `setPlayButtonPause()`. -/
def setPlayButtonPause (s : Player) : Player :=
  { s with page := { s.page with playImg := s.page.playImg.map (fun _ => pauseIcon) } }

/-- Lines 268-271 of `script.js`, `setPlayButtonPlay()`. -/
def setPlayButtonPlay (s : Player) : Player :=
  { s with page := { s.page with playImg := s.page.playImg.map (fun _ => playIcon) } }

/-- Lines 211-235 of `script.js`, `loadTrack(index, autoplay)`.  Assigning `audio.src` runs the
media element load algorithm, which leaves the element paused; `audio.play()`
un-pauses it unless the request is rejected, and the rejection handler only
logs.  `highlightActiveSong` touches only the class list of the song items,
which is not part of `Page`. -/
def loadTrack (s : Player) (index : Int) (autoplay : Bool) (play : PlayOutcome) : Player :=
  if s.songs.length = 0 then s
  else if h : index < 0 ∨ index ≥ s.songs.length then s
  else
    let item := s.songs.get ⟨index.toNat, by omega⟩
    let s1 := { s with
      currentIndex := index
      audio := { src := AUDIO_BASE_PATH ++ encodeURIComponent s.currentAlbum ++ "/".toList ++ item.encoded,
                 paused := true } }
    let s2 := updateSongInfo s1 (some item)
    if autoplay then
      setPlayButtonPause { s2 with audio := { s2.audio with paused := decide (play = .rejected) } }
    else setPlayButtonPlay s2

/-- Lines 252-256 of `script.js`, `playNext()`. -/
def playNext (s : Player) (play : PlayOutcome) : Player :=
  if s.songs.length = 0 then s
  else loadTrack s (Int.tmod (s.currentIndex + 1) s.songs.length) true play

/-- Lines 257-261 of `script.js`, `playPrev()`. -/
def playPrev (s : Player) (play : PlayOutcome) : Player :=
  if s.songs.length = 0 then s
  else loadTrack s (Int.tmod (s.currentIndex - 1 + s.songs.length) s.songs.length) true play

/-- The loop of lines 152-160 in `loadSongs`, from the anchors still to visit;
`none` when `lastPathSegment` throws. -/
def collectSongs : Anchors → Option (List Song)
  | [] => some []
  | none :: rest => collectSongs rest
  | some raw :: rest =>
    if raw = [] then collectSongs rest
    else if hasMp3Suffix raw then
      match lastPathSegment raw with
      | none => none
      | some filenameDecoded =>
        (collectSongs rest).map
          ({ decoded := filenameDecoded, encoded := encodeURIComponent filenameDecoded } :: ·)
    else collectSongs rest

/-- The `catch` block of `loadSongs`, lines 173-178. -/
def loadSongsCatch (s : Player) : Player := updateSongInfo { s with songs := [] } none

/-- Lines 140-179 of `script.js`, `loadSongs(album)`.  `renderSongList` rebuilds the song items,
which are not part of `Page`. -/
def loadSongs (s : Player) (album : Str) (r : Fetched Anchors) : Player :=
  let s1 := { s with currentAlbum := album }
  match r with
  | .networkError => loadSongsCatch s1
  | .response _ anchors =>
    match collectSongs anchors with
    | none => loadSongsCatch s1
    | some list =>
      let s2 := { s1 with songs := list }
      if s2.songs.length ≠ 0 then loadTrack { s2 with currentIndex := 0 } 0 false .rejected
      else updateSongInfo s2 none

/-- The transitions of the playlist state: selecting an album (`loadSongs` with
what the listing fetch gave), loading a track, next and previous. -/
inductive Event where
  | selectAlbum (album : Str) (r : Fetched Anchors)
  | load (index : Int) (autoplay : Bool) (play : PlayOutcome)
  | next (play : PlayOutcome)
  | prev (play : PlayOutcome)
  deriving DecidableEq, Repr

/-- One transition. -/
def step (s : Player) : Event → Player
  | .selectAlbum album r => loadSongs s album r
  | .load index autoplay play => loadTrack s index autoplay play
  | .next play => playNext s play
  | .prev play => playPrev s play

/-- The state after a finite sequence of transitions. -/
def run (s : Player) (events : List Event) : Player := events.foldl step s

/-- The invariant of the playlist state: the index is within a non-empty
playlist. -/
def IndexInRange (s : Player) : Prop :=
  s.songs ≠ [] → 0 ≤ s.currentIndex ∧ s.currentIndex < s.songs.length

/-! ## Time display (`script.js`, lines 25-31) -/

/-- The argument of `formatTime`: `undefined` (unset) or a Number.  A finite
number is written as a decimal, `mantissa / 10 ^ scale`; every finite double
has such a form (65.7 is `finite 657 1`, and both zeros are `finite 0 k`). -/
inductive JsNum where
  | undefined
  | nan
  | posInf
  | negInf
  | finite (mantissa : Int) (scale : Nat)
  deriving DecidableEq, Repr

/-- A Number after `Math.floor`: `NaN`, an infinity, or an integer. -/
inductive JsWhole where
  | nan
  | posInf
  | negInf
  | int (n : Int)
  deriving DecidableEq, Repr

/-- The test `!seconds`: true for `undefined`, `NaN` and zero. -/
def JsNum.not : JsNum → Bool
  | .undefined => true
  | .nan => true
  | .posInf => false
  | .negInf => false
  | .finite mantissa _ => decide (mantissa = 0)

/-- The global `isNaN`: true when the argument converts to `NaN`. -/
def JsNum.isNaN : JsNum → Bool
  | .undefined => true
  | .nan => true
  | _ => false

/-- The function `Math.floor`, which is exact on doubles; the integer quotient
by a positive number rounds down. -/
def mathFloor : JsNum → JsWhole
  | .undefined => .nan
  | .nan => .nan
  | .posInf => .posInf
  | .negInf => .negInf
  | .finite mantissa scale => .int (mantissa / (10 : Int) ^ scale)

/-- The expression `Math.floor(seconds / 60)` of line 28 on a floored number.
On integers below 2 ^ 53 in absolute value the rounding of the double division
cannot reach the next integer, so the result is the integer quotient rounded
down. -/
def floorDiv60 : JsWhole → JsWhole
  | .nan => .nan
  | .posInf => .posInf
  | .negInf => .negInf
  | .int n => .int (n / 60)

/-- The expression `seconds % 60` of line 29 on a floored number: the remainder
with the sign of the dividend, and `NaN` for an infinite dividend. -/
def rem60 : JsWhole → JsWhole
  | .nan => .nan
  | .posInf => .nan
  | .negInf => .nan
  | .int n => .int (Int.tmod n 60)

/-- The conversion `String(x)` on a floored number; an integer below 10 ^ 21 in
absolute value is written in decimal digits. -/
def numberToString : JsWhole → Str
  | .nan => "NaN".toList
  | .posInf => "Infinity".toList
  | .negInf => "-Infinity".toList
  | .int n => if n < 0 then '-' :: Nat.toDigits 10 n.natAbs else Nat.toDigits 10 n.toNat

/-- The method `String.prototype.padStart` with a one-character filler. -/
def padStart (s : Str) (targetLength : Nat) (filler : Char) : Str :=
  List.replicate (targetLength - s.length) filler ++ s

/-- Lines 25-31 of `script.js` (and 11-17 of `script_test1.js`), `formatTime(seconds)`. -/
def formatTime (seconds : JsNum) : Str :=
  if seconds.not || seconds.isNaN then "00:00".toList
  else
    let floored := mathFloor seconds
    let m := floorDiv60 floored
    let s := rem60 floored
    padStart (numberToString m) 2 '0' ++ ":".toList ++ padStart (numberToString s) 2 '0'

/-- The decimal digit character of a value below 10. -/
def digitChar (d : Nat) : Char := Char.ofNat (48 + d)

/-- Specification side of "zero-padded to two digits" for a value below 100. -/
def twoDigits (n : Nat) : Str := [digitChar (n / 10), digitChar (n % 10)]

/-! ## Album cards (`script.js`, lines 85-137) -/

/-- The replacement function of line 136 on one character. -/
def escapeChar (c : Char) : Str :=
  if c = '&' then "&amp;".toList
  else if c = '<' then "&lt;".toList
  else if c = '>' then "&gt;".toList
  else if c = Char.ofNat 34 then "&quot;".toList
  else if c = Char.ofNat 39 then "&#39;".toList
  else [c]

/-- The call `str.replace(/[&<>"']/g, ...)` of line 136 on a string. -/
def escapeText : Str → Str
  | [] => []
  | c :: cs => escapeChar c ++ escapeText cs

/-- Lines 134-137 of `script.js`, `escapeHtml(str)`: a falsy value gives `""`, a string is
escaped, and any other value has no `replace` method, so the call throws a
`TypeError` (`none`). -/
def escapeHtml (str : JsVal) : Option Str :=
  if ¬ str.truthy then some []
  else
    match str with
    | .str s => some (escapeText s)
    | _ => none

/-- The string a value contributes to a template literal (`ToString`);
`object` stands for a plain object. -/
def templateText : JsVal → Str
  | .undefined => "undefined".toList
  | .null => "null".toList
  | .bool b => if b then "true".toList else "false".toList
  | .num n => numberToString (.int n)
  | .str s => s
  | .object => "[object Object]".toList

/-- The template of lines 104-116 up to the folder name in the image address. -/
def cardBeforeFolder : Str :=
  "\n".toList ++
    "      <div class=\"play\">\n".toList ++
    "        <svg xmlns=\"http://www.w3.org/2000/svg\" viewBox=\"0 0 40 40\" width=\"40\" h".toList ++
    "eight=\"40\">\n".toList ++
    "          <circle cx=\"20\" cy=\"20\" r=\"20\" fill=\"#1DB954\" />\n".toList ++
    "          <g transform=\"translate(8, 8)\">\n".toList ++
    "            <path d=\"M18.8906 12.846C18.5371 14.189 16.8667 15.138 13.5257 17.03".toList ++
    "61C10.296 18.8709 8.6812 19.7884 7.37983 19.4196C6.8418 19.2671 6.35159 18.9776 ".toList ++
    "5.95624 18.5787C5 17.6139 5 15.7426 5 12C5 8.2574 5 6.3861 5.95624 5.42132C6.351".toList ++
    "59 5.02245 6.8418 4.73288 7.37983 4.58042C8.6812 4.21165 10.296 5.12907 13.5257 ".toList ++
    "6.96393C16.8667 8.86197 18.5371 9.811 18.8906 11.154C19.0365 11.7084 19.0365 12.".toList ++
    "2916 18.8906 12.846Z\" fill=\"#000000\" stroke=\"#1ed760\" stroke-width=\"1.5\" stroke-".toList ++
    "linejoin=\"round\"/>\n".toList ++
    "          </g>\n".toList ++
    "        </svg>\n".toList ++
    "      </div>\n".toList ++
    "      <img src=\"/spotify/music/".toList

/-- The template between the folder name and the title inside `alt`. -/
def cardBeforeAlt : Str := "/cover.jpg\" alt=\"".toList

/-- The template between the title inside `alt` and the title inside `h2`. -/
def cardBeforeTitle : Str := " cover\" onerror=\"this.style.opacity=0.5;\">\n      <h2>".toList

/-- The template between the title inside `h2` and the description. -/
def cardBeforeDescription : Str := "</h2>\n      <p>".toList

/-- The template after the description. -/
def cardEnd : Str := "</p>\n    ".toList

/-- The template literal assigned to `card.innerHTML` at lines 104-116; `none`
when one of the `escapeHtml` calls throws. -/
def cardInnerHTML (folder : Str) (meta : Metadata) : Option Str :=
  match escapeHtml meta.title, escapeHtml meta.description with
  | some title, some description =>
    some (cardBeforeFolder ++ encodeURIComponent folder ++ cardBeforeAlt ++
      templateText meta.title ++ cardBeforeTitle ++ title ++ cardBeforeDescription ++
      description ++ cardEnd)
  | _, _ => none

/-- A card appended to the `.song-list` container. -/
structure Card where
  /-- The value of `card.dataset.album`. -/
  album : Str
  innerHTML : Str
  deriving DecidableEq, Repr

/-- The loop of lines 96-118 in `renderAlbumCards` over the album folders still
to visit, given what the descriptor fetch of each folder returns: the cards
appended to the container.  A throwing `escapeHtml` ends the loop, the cards
appended before it stay. -/
def renderCards (descriptor : Str → Fetched Descriptor) : List Str → List Card
  | [] => []
  | folder :: rest =>
    match cardInnerHTML folder (fetchAlbumMetadata folder (descriptor folder)) with
    | none => []
    | some html => { album := folder, innerHTML := html } :: renderCards descriptor rest

/-- Lines 85-118 of `script.js`, `renderAlbumCards()`, on a page that has the `.song-list`
container: the cards the container holds afterwards. -/
def renderAlbumCards (listing : Fetched Anchors) (descriptor : Str → Fetched Descriptor) :
    List Card :=
  renderCards descriptor (fetchAlbumFolders listing)

/-- A title that closes the `alt` attribute and opens a script element. -/
def breakoutTitle : Str := [Char.ofNat 34, '>', '<', 's', 'c', 'r', 'i', 'p', 't', '>']

/-! ## Concrete states and listings used as examples -/

/-- Three songs, as `loadSongs` builds them, with the index at `i`. -/
def threeSongs (i : Int) : Player :=
  { songs := [⟨"a.mp3".toList, "a.mp3".toList⟩, ⟨"b.mp3".toList, "b.mp3".toList⟩,
              ⟨"c.mp3".toList, "c.mp3".toList⟩],
    currentAlbum := "ncs".toList, currentIndex := i,
    audio := { src := [], paused := true },
    page := { songinfo := some [], songtime := some [], playImg := some playIcon } }

/-! ## Specification-side definitions -/

/-- What `lastPathSegment` returns for every anchor other than the
parent-directory anchor "../", in document order.  (An anchor without `href`
counts as the empty segment, as `lastPathSegment(null)` is `""`; an href on
which it throws has none.)  It is shown equal to `documentSegments`. -/
def segmentList (anchors : Anchors) : List Str :=
  (anchors.filter (fun a => a ≠ some "../".toList)).filterMap (fun a =>
    match a with
    | none => some []
    | some href => lastPathSegment href)

/-- Specification side of "duplicates removed, first-seen order preserved":
keep an element and drop its later occurrences. -/
def firstOccurrences : List Str → List Str
  | [] => []
  | x :: xs => x :: (firstOccurrences xs).filter (fun y => y ≠ x)

/-- A segment that names a folder: not empty and without the `.mp3` suffix. -/
def isFolderName (x : Str) : Bool := !hasMp3Suffix x && decide (x ≠ [])

/-- Specification side of song discovery: the hrefs that end in `.mp3` in any
letter case, in document order. -/
def mp3Hrefs (anchors : Anchors) : List Str := (anchors.filterMap id).filter hasMp3Suffix

/-- Specification side of Load with autoplay: the state in which the song `item`
at position `index` has been loaded and playback requested.  The index is
current, the audio source is the base address, the percent-encoded album and
the encoded file name, the element plays unless the request was rejected, the
now-playing label shows the decoded name, the time label is reset and the
play/pause image shows the pause icon. -/
def playingTrack (s : Player) (index : Int) (item : Song) (play : PlayOutcome) : Player :=
  { songs := s.songs
    currentAlbum := s.currentAlbum
    currentIndex := index
    audio :=
      { src := "http://127.0.0.1:3000/spotify/music/".toList ++
          encodeURIComponent s.currentAlbum ++ ['/'] ++ item.encoded
        paused := decide (play = .rejected) }
    page :=
      { songinfo := s.page.songinfo.map (fun _ => item.decoded)
        songtime := s.page.songtime.map (fun _ => "00:00 / 00:00".toList)
        playImg := s.page.playImg.map (fun _ => "/spotify/svg/pause.svg".toList) } }

/-- Specification side of "the last path segment" of a decoded reference, without
splitting: drop the separators at the end, then keep the characters back to the
previous separator. -/
def lastSegment (decoded : Str) : Str :=
  ((decoded.reverse.dropWhile isPathSep).takeWhile (fun c => !isPathSep c)).reverse

/-- Specification side of folder discovery: the last path segment of the
percent-decoded href of every anchor other than the parent-directory anchor
"../", in document order.  (An anchor without `href` has the empty segment; an
href that does not percent-decode has none.) -/
def documentSegments (anchors : Anchors) : List Str :=
  (anchors.filter (fun a => a ≠ some "../".toList)).filterMap (fun a =>
    match a with
    | none => some []
    | some href => (decodeURIComponent href).map lastSegment)

/-- A root listing with an href that does not percent-decode. -/
def malformedListingExample : Anchors :=
  [some "100%/".toList, some "ncs/".toList, some "cs/".toList]

/-- The root listing of the folder-discovery example. -/
def rootListingExample : Anchors :=
  [some "../".toList, some "ncs/".toList, some "cs/".toList, some "ncs/".toList]

/-- The album listing of the song-discovery example. -/
def albumListingExample : Anchors :=
  [some "cover.jpg".toList, some "Track%20One.mp3".toList, some "Track%20Two.MP3".toList]

/-! ## Player actions: frame and index lemmas -/

theorem loadTrack_songs (s : Player) (index : Int) (autoplay : Bool) (play : PlayOutcome) :
    (loadTrack s index autoplay play).songs = s.songs := by
  unfold loadTrack
  split_ifs <;> simp [setPlayButtonPause, setPlayButtonPlay, updateSongInfo]

theorem loadTrack_of_invalid (s : Player) (index : Int) (autoplay : Bool) (play : PlayOutcome)
    (h : index < 0 ∨ index ≥ s.songs.length) : loadTrack s index autoplay play = s := by
  unfold loadTrack
  split_ifs <;> rfl

theorem loadTrack_currentIndex (s : Player) (index : Int) (autoplay : Bool) (play : PlayOutcome)
    (h0 : 0 ≤ index) (h1 : index < s.songs.length) :
    (loadTrack s index autoplay play).currentIndex = index := by
  have hlen : s.songs.length ≠ 0 := by
    intro h; rw [h] at h1; simp at h1; omega
  have hv : ¬ (index < 0 ∨ index ≥ s.songs.length) := by omega
  unfold loadTrack
  rw [if_neg hlen, dif_neg hv]
  cases autoplay <;> simp [setPlayButtonPause, setPlayButtonPlay, updateSongInfo]

theorem loadTrack_preserves (s : Player) (index : Int) (autoplay : Bool) (play : PlayOutcome)
    (hs : IndexInRange s) : IndexInRange (loadTrack s index autoplay play) := by
  by_cases hv : index < 0 ∨ index ≥ s.songs.length
  · rw [loadTrack_of_invalid s index autoplay play hv]; exact hs
  · intro _
    rw [loadTrack_songs, loadTrack_currentIndex s index autoplay play (by omega) (by omega)]
    omega

theorem tmod_next (i n : Int) (h0 : 0 ≤ i) (h1 : i < n) : Int.tmod (i + 1) n = (i + 1) % n := by
  rw [Int.tmod_eq_emod] <;> omega

theorem tmod_prev (i n : Int) (h0 : 0 ≤ i) (h1 : i < n) : Int.tmod (i - 1 + n) n = (i - 1) % n := by
  rw [Int.tmod_eq_emod (by omega) (by omega), Int.add_emod_self]


theorem playNext_eq (s : Player) (play : PlayOutcome) (hne : s.songs ≠ [])
    (h0 : 0 ≤ s.currentIndex) (h1 : s.currentIndex < s.songs.length) :
    playNext s play = loadTrack s ((s.currentIndex + 1) % s.songs.length) true play := by
  have hlen : s.songs.length ≠ 0 := by simpa using hne
  unfold playNext
  rw [if_neg hlen, tmod_next _ _ h0 h1]

theorem playPrev_eq (s : Player) (play : PlayOutcome) (hne : s.songs ≠ [])
    (h0 : 0 ≤ s.currentIndex) (h1 : s.currentIndex < s.songs.length) :
    playPrev s play = loadTrack s ((s.currentIndex - 1) % s.songs.length) true play := by
  have hlen : s.songs.length ≠ 0 := by simpa using hne
  unfold playPrev
  rw [if_neg hlen, tmod_prev _ _ h0 h1]

theorem playNext_preserves (s : Player) (play : PlayOutcome) (hs : IndexInRange s) :
    IndexInRange (playNext s play) := by
  unfold playNext
  split_ifs
  · exact hs
  · exact loadTrack_preserves _ _ _ _ hs

theorem playPrev_preserves (s : Player) (play : PlayOutcome) (hs : IndexInRange s) :
    IndexInRange (playPrev s play) := by
  unfold playPrev
  split_ifs
  · exact hs
  · exact loadTrack_preserves _ _ _ _ hs

theorem loadSongsCatch_songs (s : Player) : (loadSongsCatch s).songs = [] := rfl

theorem loadSongs_songs (s : Player) (album : Str) (r : Fetched Anchors) :
    (loadSongs s album r).songs =
      match r with
      | .networkError => []
      | .response _ anchors => (collectSongs anchors).getD [] := by
  cases r with
  | networkError => rfl
  | response status anchors =>
    dsimp only [loadSongs]
    cases hc : collectSongs anchors with
    | none => rfl
    | some list =>
      dsimp only [Option.getD_some]
      split_ifs with hl
      · rw [loadTrack_songs]
      · rfl

theorem loadSongs_preserves (s : Player) (album : Str) (r : Fetched Anchors) :
    IndexInRange (loadSongs s album r) := by
  cases r with
  | networkError => intro h; exact absurd rfl h
  | response status anchors =>
    dsimp only [loadSongs]
    cases hc : collectSongs anchors with
    | none => intro h; exact absurd rfl h
    | some list =>
      dsimp only
      split_ifs with hl
      · apply loadTrack_preserves
        intro _
        have h0 : 0 < list.length := Nat.pos_of_ne_zero hl
        refine ⟨le_refl _, ?_⟩
        show (0 : Int) < (list.length : Int)
        exact_mod_cast h0
      · intro h
        simp only [ne_eq, Decidable.not_not] at hl
        exact absurd (List.length_eq_zero.mp hl) h

theorem step_preserves (s : Player) (e : Event) (hs : IndexInRange s) :
    IndexInRange (step s e) := by
  cases e with
  | selectAlbum album r => exact loadSongs_preserves s album r
  | load index autoplay play => exact loadTrack_preserves s index autoplay play hs
  | next play => exact playNext_preserves s play hs
  | prev play => exact playPrev_preserves s play hs

theorem run_preserves (events : List Event) (s : Player) (hs : IndexInRange s) :
    IndexInRange (run s events) := by
  induction events generalizing s with
  | nil => exact hs
  | cons e es ih => exact ih (step s e) (step_preserves s e hs)


/-! ## Playlist state: the claims -/

/-- C1: starting from the initial state (no songs, index 0), after any finite
sequence of the transitions loadSongs (with any listing result or a failed
fetch), loadTrack (any integer index, either autoplay value), playNext and
playPrev, a non-empty playlist has its current index within bounds. -/
theorem C1_index_in_range (page : Page) (events : List Event)
    (h : (run (initial page) events).songs ≠ []) :
    0 ≤ (run (initial page) events).currentIndex ∧
      (run (initial page) events).currentIndex < (run (initial page) events).songs.length :=
  run_preserves events (initial page) (fun h0 => absurd rfl h0) h

/-- Witness for C1: select an album with two songs, go back from index 0 (which
wraps to 1), then ask for index 7 (which is rejected). -/
theorem C1_index_in_range_witness :
    (run (initial ⟨none, none, none⟩)
        [.selectAlbum "ncs".toList (.response 200 [some "a.mp3".toList, some "b.mp3".toList]),
         .prev .started, .load 7 true .started]).songs ≠ [] ∧
      0 ≤ (run (initial ⟨none, none, none⟩)
        [.selectAlbum "ncs".toList (.response 200 [some "a.mp3".toList, some "b.mp3".toList]),
         .prev .started, .load 7 true .started]).currentIndex ∧
      (run (initial ⟨none, none, none⟩)
        [.selectAlbum "ncs".toList (.response 200 [some "a.mp3".toList, some "b.mp3".toList]),
         .prev .started, .load 7 true .started]).currentIndex <
      (run (initial ⟨none, none, none⟩)
        [.selectAlbum "ncs".toList (.response 200 [some "a.mp3".toList, some "b.mp3".toList]),
         .prev .started, .load 7 true .started]).songs.length :=
  ⟨by decide, C1_index_in_range _ _ (by decide)⟩

theorem loadTrack_of_valid (s : Player) (index : Int) (play : PlayOutcome) (item : Song)
    (h0 : 0 ≤ index) (h1 : index < s.songs.length)
    (hitem : s.songs[index.toNat]? = some item) :
    loadTrack s index true play = playingTrack s index item play := by
  have hlen : s.songs.length ≠ 0 := by
    intro h; rw [h] at h1; simp at h1; omega
  have hv : ¬ (index < 0 ∨ index ≥ s.songs.length) := by omega
  have hlt : index.toNat < s.songs.length := by omega
  have hget : s.songs.get ⟨index.toNat, hlt⟩ = item := by
    rw [List.getElem?_eq_getElem hlt] at hitem
    exact Option.some.inj hitem
  unfold loadTrack
  rw [if_neg hlen, dif_neg hv]
  simp only [hget, if_true]
  rfl

theorem song_at_valid (s : Player) (index : Int) (h0 : 0 ≤ index) (h1 : index < s.songs.length) :
    ∃ item, s.songs[index.toNat]? = some item := by
  have hlt : index.toNat < s.songs.length := by omega
  exact ⟨_, List.getElem?_eq_getElem hlt⟩

/-- C2: on a non-empty playlist of length n with current index i in range,
playNext loads the song at (i + 1) mod n with autoplay and playPrev loads the
song at (i - 1) mod n with autoplay (mathematical mod, so both directions
wrap): the index moves there, the audio source is the address of that song,
playback is requested and the page shows that song as playing; each is the
call of loadTrack at the wrapped index with autoplay = true.  On an empty
playlist both leave the state unchanged. -/
theorem C2_next_prev_wrap (s : Player) (play : PlayOutcome) :
    (s.songs ≠ [] → 0 ≤ s.currentIndex → s.currentIndex < s.songs.length →
      (∃ item, s.songs[((s.currentIndex + 1) % s.songs.length).toNat]? = some item ∧
        playNext s play = playingTrack s ((s.currentIndex + 1) % s.songs.length) item play) ∧
      (∃ item, s.songs[((s.currentIndex - 1) % s.songs.length).toNat]? = some item ∧
        playPrev s play = playingTrack s ((s.currentIndex - 1) % s.songs.length) item play) ∧
      playNext s play = loadTrack s ((s.currentIndex + 1) % s.songs.length) true play ∧
      (playNext s play).currentIndex = (s.currentIndex + 1) % s.songs.length ∧
      playPrev s play = loadTrack s ((s.currentIndex - 1) % s.songs.length) true play ∧
      (playPrev s play).currentIndex = (s.currentIndex - 1) % s.songs.length) ∧
    (s.songs = [] → playNext s play = s ∧ playPrev s play = s) := by
  constructor
  · intro hne h0 h1
    have hn : (0 : Int) < s.songs.length := by omega
    have hnext0 := Int.emod_nonneg (s.currentIndex + 1) (show (s.songs.length : Int) ≠ 0 by omega)
    have hnext1 := Int.emod_lt_of_pos (s.currentIndex + 1) hn
    have hprev0 := Int.emod_nonneg (s.currentIndex - 1) (show (s.songs.length : Int) ≠ 0 by omega)
    have hprev1 := Int.emod_lt_of_pos (s.currentIndex - 1) hn
    obtain ⟨itemN, hN⟩ := song_at_valid s _ hnext0 hnext1
    obtain ⟨itemP, hP⟩ := song_at_valid s _ hprev0 hprev1
    refine ⟨⟨itemN, hN, ?_⟩, ⟨itemP, hP, ?_⟩, playNext_eq s play hne h0 h1, ?_,
      playPrev_eq s play hne h0 h1, ?_⟩
    · rw [playNext_eq s play hne h0 h1]
      exact loadTrack_of_valid s _ play itemN hnext0 hnext1 hN
    · rw [playPrev_eq s play hne h0 h1]
      exact loadTrack_of_valid s _ play itemP hprev0 hprev1 hP
    · rw [playNext_eq s play hne h0 h1]
      exact loadTrack_currentIndex _ _ _ _ hnext0 hnext1
    · rw [playPrev_eq s play hne h0 h1]
      exact loadTrack_currentIndex _ _ _ _ hprev0 hprev1
  · intro he
    simp [playNext, playPrev, he]

/-- Witness for C2: with three songs, Next at index 2 yields index 0 and Prev
at index 0 yields index 2, each loading the song found there. -/
theorem C2_next_prev_wrap_witness :
    ((∃ item, (threeSongs 2).songs[(((threeSongs 2).currentIndex + 1) %
          (threeSongs 2).songs.length).toNat]? = some item ∧
        playNext (threeSongs 2) .started =
          playingTrack (threeSongs 2)
            (((threeSongs 2).currentIndex + 1) % (threeSongs 2).songs.length) item .started) ∧
      (playNext (threeSongs 2) .started).currentIndex = 0) ∧
    ((∃ item, (threeSongs 0).songs[(((threeSongs 0).currentIndex - 1) %
          (threeSongs 0).songs.length).toNat]? = some item ∧
        playPrev (threeSongs 0) .started =
          playingTrack (threeSongs 0)
            (((threeSongs 0).currentIndex - 1) % (threeSongs 0).songs.length) item .started) ∧
      (playPrev (threeSongs 0) .started).currentIndex = 2) :=
  ⟨⟨((C2_next_prev_wrap (threeSongs 2) .started).1 (by decide) (by decide) (by decide)).1,
    ((C2_next_prev_wrap (threeSongs 2) .started).1 (by decide) (by decide) (by decide)).2.2.2.1⟩,
   ⟨((C2_next_prev_wrap (threeSongs 0) .started).1 (by decide) (by decide) (by decide)).2.1,
    ((C2_next_prev_wrap (threeSongs 0) .started).1 (by decide) (by decide) (by decide)).2.2.2.2.2⟩⟩

/-- The states C2 gives on three songs, spelled out: Next from the last song
plays the first, Prev from the first plays the last. -/
theorem next_prev_three_songs :
    (playNext (threeSongs 2) .started).audio.src =
        "http://127.0.0.1:3000/spotify/music/ncs/a.mp3".toList ∧
      (playNext (threeSongs 2) .started).audio.paused = false ∧
      (playPrev (threeSongs 0) .started).audio.src =
        "http://127.0.0.1:3000/spotify/music/ncs/c.mp3".toList ∧
      (playPrev (threeSongs 0) .started).page.songinfo = some "c.mp3".toList := by
  decide

/-- C3: loadTrack with an index outside [0, songs.length), which is every index
when there are no songs, returns the state as it was; in particular
currentIndex and audio.src are unchanged, for either value of autoplay. -/
theorem C3_load_out_of_range (s : Player) (index : Int) (autoplay : Bool) (play : PlayOutcome)
    (h : index < 0 ∨ index ≥ s.songs.length) :
    (loadTrack s index autoplay play).currentIndex = s.currentIndex ∧
      (loadTrack s index autoplay play).audio.src = s.audio.src ∧
      loadTrack s index autoplay play = s := by
  rw [loadTrack_of_invalid s index autoplay play h]
  exact ⟨rfl, rfl, rfl⟩

/-- Witness for C3: index 3 on a playlist of three songs. -/
theorem C3_load_out_of_range_witness :
    (loadTrack (threeSongs 1) 3 true .started).currentIndex = 1 ∧
      (loadTrack (threeSongs 1) 3 true .started).audio.src = [] ∧
      loadTrack (threeSongs 1) 3 true .started = threeSongs 1 :=
  C3_load_out_of_range (threeSongs 1) 3 true .started (by decide)

/-! ## Playback start -/

/-- C8 as stated fails: on the three-song playlist with the play/pause image
present, loadTrack at index 0 with autoplay = true and a rejected play request
leaves the element paused but the image shows the pause icon, which is the
"playing" indication, not the play icon of the "paused" indication. -/
theorem C8_rejected_play_counterexample :
    (loadTrack (threeSongs 0) 0 true .rejected).audio.paused = true ∧
      (loadTrack (threeSongs 0) 0 true .rejected).page.playImg = some pauseIcon ∧
      (loadTrack (threeSongs 0) 0 true .rejected).page.playImg ≠ some playIcon := by
  decide

/-- C8 amended: when loadTrack is called with autoplay = true on a valid index
and the play request is rejected, the element stays paused and the play/pause
image, when the page has one, is set to the pause icon (the "playing"
indication) all the same. -/
theorem C8_rejected_play_amended (s : Player) (index : Int)
    (h0 : 0 ≤ index) (h1 : index < s.songs.length) :
    (loadTrack s index true .rejected).audio.paused = true ∧
      (loadTrack s index true .rejected).page.playImg = s.page.playImg.map (fun _ => pauseIcon) := by
  have hlen : s.songs.length ≠ 0 := by
    intro h; rw [h] at h1; simp at h1; omega
  have hv : ¬ (index < 0 ∨ index ≥ s.songs.length) := by omega
  unfold loadTrack
  rw [if_neg hlen, dif_neg hv]
  simp [setPlayButtonPause, updateSongInfo]

/-- Witness for the amended C8: index 1 of three songs. -/
theorem C8_rejected_play_amended_witness :
    (loadTrack (threeSongs 0) 1 true .rejected).audio.paused = true ∧
      (loadTrack (threeSongs 0) 1 true .rejected).page.playImg =
        (threeSongs 0).page.playImg.map (fun _ => pauseIcon) :=
  C8_rejected_play_amended (threeSongs 0) 1 (by decide) (by decide)

/-! ## Catalog loader: failures -/

/-- C7 at a failing input: a 404 response whose body has an anchor with href
"home/" is parsed like any listing, and fetchAlbumFolders returns ["home"],
not the empty sequence. -/
theorem C7_non_success_status_is_parsed :
    Fetched.ok 404 = false ∧
      fetchAlbumFolders (.response 404 [some "home/".toList]) = ["home".toList] := by
  decide

/-- The network-error half of C7: a rejected fetch gives the empty sequence. -/
theorem fetchAlbumFolders_networkError : fetchAlbumFolders .networkError = [] := rfl

/-- C9 at a failing input: an anchor whose href is ".." (no trailing slash) is
not the skipped "../", and fetchAlbumFolders returns the album key "..". -/
theorem C9_parent_marker_returned :
    fetchAlbumFolders (.response 200 [some "..".toList]) = ["..".toList] := by
  decide

/-- C10: whenever the descriptor fetch fails (network error, a status outside
200-299, or a body that is not valid JSON), fetchAlbumMetadata returns exactly
the folder name as title and the empty description; being a total function, it
returns for every input. -/
theorem C10_metadata_fallback (folder : Str) (r : Fetched Descriptor)
    (h : r = .networkError ∨ (∃ status body, r = .response status body ∧ Fetched.ok status = false) ∨
      (∃ status, r = .response status .invalid)) :
    fetchAlbumMetadata folder r = { title := .str folder, description := .str [] } := by
  rcases h with h | ⟨status, body, h, hok⟩ | ⟨status, h⟩
  · subst h; rfl
  · subst h; simp [fetchAlbumMetadata, hok]
  · subst h
    dsimp only [fetchAlbumMetadata]
    split_ifs <;> rfl

/-- Witness for C10: HTTP 404 for album "jazz". -/
theorem C10_metadata_fallback_witness :
    fetchAlbumMetadata "jazz".toList (.response 404 .invalid) =
      { title := .str "jazz".toList, description := .str [] } :=
  C10_metadata_fallback "jazz".toList (.response 404 .invalid)
    (Or.inr (Or.inl ⟨404, .invalid, rfl, by decide⟩))

/-! ## Strings: splitting -/

theorem split_of_no_sep (p : Char → Bool) (s : Str) (h : ∀ c ∈ s, p c = false) :
    split p s = [s] := by
  induction s with
  | nil => rfl
  | cons c cs ih =>
    have hc : p c = false := h c (List.mem_cons_self _ _)
    have hcs : ∀ x ∈ cs, p x = false := fun x hx => h x (List.mem_cons_of_mem _ hx)
    simp [split, hc, ih hcs]

theorem split_append_no_sep (p : Char → Bool) (a suf : Str) (h : ∀ c ∈ suf, p c = false) :
    ∃ init l, split p a = init ++ [l] ∧ split p (a ++ suf) = init ++ [l ++ suf] := by
  induction a with
  | nil => exact ⟨[], [], rfl, by simpa using split_of_no_sep p suf h⟩
  | cons c cs ih =>
    obtain ⟨init, l, h1, h2⟩ := ih
    by_cases hc : p c = true
    · exact ⟨[] :: init, l, by simp [split, hc, h1], by simp [split, hc, h2]⟩
    · cases init with
      | nil => exact ⟨[], c :: l, by simp [split, hc, h1], by simp [split, hc, h2]⟩
      | cons x xs => exact ⟨(c :: x) :: xs, l, by simp [split, hc, h1], by simp [split, hc, h2]⟩

theorem split_no_sep (p : Char → Bool) (s : Str) :
    ∀ seg ∈ split p s, ∀ c ∈ seg, p c = false := by
  induction s with
  | nil => intro seg hseg c hc; simp [split] at hseg; subst hseg; simp at hc
  | cons x xs ih =>
    intro seg hseg c hc
    by_cases hx : p x = true
    · simp only [split, hx, if_true, List.mem_cons] at hseg
      rcases hseg with rfl | hseg
      · simp at hc
      · exact ih seg hseg c hc
    · simp only [split, hx] at hseg
      cases hs : split p xs with
      | nil => 
        rw [hs] at hseg
        simp at hseg
        subst hseg
        simp at hc
        subst hc
        simpa using hx
      | cons y ys =>
        rw [hs] at hseg ih
        simp only [Bool.false_eq_true, if_false, List.mem_cons] at hseg
        rcases hseg with rfl | hseg
        · rcases List.mem_cons.mp hc with rfl | hc
          · simpa using hx
          · exact ih y (List.mem_cons_self _ _) c hc
        · exact ih seg (List.mem_cons_of_mem _ hseg) c hc

/-! ## Strings: percent-decoding -/

theorem unescape_cons_lit (c : Char) (hc : c ≠ '%') (rest : Str) :
    unescape (c :: rest) = (unescape rest).map (Tok.lit c :: ·) := by
  rw [unescape.eq_def]
  simp [hc]

theorem unescape_cons_esc (h1 h2 : Char) (rest : Str) :
    unescape ('%' :: h1 :: h2 :: rest) =
      match hexVal h1, hexVal h2 with
      | some a, some b => (unescape rest).map (Tok.oct (16 * a + b) :: ·)
      | _, _ => none := by
  rw [unescape.eq_def]
  simp

theorem unescape_append (c : Char) (hc : c ≠ '%') (hx : hexVal c = none) (rest : Str) :
    ∀ (n : Nat) (pre : Str) (ts : List Tok), pre.length ≤ n →
      unescape (pre ++ c :: rest) = some ts →
      ∃ t1 t2, unescape pre = some t1 ∧ unescape rest = some t2 ∧ ts = t1 ++ Tok.lit c :: t2 := by
  intro n
  induction n with
  | zero =>
    intro pre ts hlen h
    have : pre = [] := List.length_eq_zero.mp (Nat.le_zero.mp hlen)
    subst this
    rw [List.nil_append, unescape_cons_lit c hc, Option.map_eq_some'] at h
    obtain ⟨t2, h1, h2⟩ := h
    exact ⟨[], t2, rfl, h1, by simp [← h2]⟩
  | succ n ih =>
    intro pre ts hlen h
    rcases pre with _ | ⟨p0, pre1⟩
    · rw [List.nil_append, unescape_cons_lit c hc, Option.map_eq_some'] at h
      obtain ⟨t2, h1, h2⟩ := h
      exact ⟨[], t2, rfl, h1, by simp [← h2]⟩
    · by_cases hp : p0 = '%'
      · subst hp
        rcases pre1 with _ | ⟨h1, pre2⟩
        · exfalso
          cases rest with
          | nil => simp [unescape] at h
          | cons r rs =>
            rw [List.cons_append, List.nil_append, unescape_cons_esc, hx] at h
            simp at h
        · rcases pre2 with _ | ⟨h2, pre3⟩
          · exfalso
            rw [List.cons_append, List.cons_append, List.nil_append, unescape_cons_esc, hx] at h
            cases hh : hexVal h1 <;> simp [hh] at h
          · rw [List.cons_append, List.cons_append, List.cons_append, unescape_cons_esc] at h
            cases ha : hexVal h1 with
            | none => simp [ha] at h
            | some a =>
              cases hb : hexVal h2 with
              | none => simp [ha, hb] at h
              | some b =>
                simp only [ha, hb, Option.map_eq_some'] at h
                obtain ⟨ts1, h1', h2'⟩ := h
                obtain ⟨t1, t2, e1, e2, e3⟩ := ih pre3 ts1 (by simp at hlen; omega) h1'
                refine ⟨Tok.oct (16 * a + b) :: t1, t2, ?_, e2, ?_⟩
                · rw [unescape_cons_esc, ha, hb, e1]; rfl
                · simp [← h2', e3]
      · rw [List.cons_append, unescape_cons_lit p0 hp, Option.map_eq_some'] at h
        obtain ⟨ts1, h1', h2'⟩ := h
        obtain ⟨t1, t2, e1, e2, e3⟩ := ih pre1 ts1 (by simp at hlen; omega) h1'
        refine ⟨Tok.lit p0 :: t1, t2, ?_, e2, ?_⟩
        · rw [unescape_cons_lit p0 hp, e1]; rfl
        · simp [← h2', e3]

theorem utf8Decode_lit (c : Char) (ts : List Tok) :
    utf8Decode (Tok.lit c :: ts) = (utf8Decode ts).map (c :: ·) := rfl

theorem utf8Decode_oct (b : Nat) (ts : List Tok) :
    utf8Decode (Tok.oct b :: ts) =
      if b < 128 then (utf8Decode ts).map (Char.ofNat b :: ·)
      else if b < 192 then none
      else if b < 224 then
        match ts with
        | Tok.oct b1 :: ts1 =>
          match scalar2 b b1 with
          | some v => (utf8Decode ts1).map (v :: ·)
          | none => none
        | _ => none
      else if b < 240 then
        match ts with
        | Tok.oct b1 :: Tok.oct b2 :: ts2 =>
          match scalar3 b b1 b2 with
          | some v => (utf8Decode ts2).map (v :: ·)
          | none => none
        | _ => none
      else if b < 248 then
        match ts with
        | Tok.oct b1 :: Tok.oct b2 :: Tok.oct b3 :: ts3 =>
          match scalar4 b b1 b2 b3 with
          | some v => (utf8Decode ts3).map (v :: ·)
          | none => none
        | _ => none
      else none := by
  rcases ts with _ | ⟨(y | b1), _ | ⟨(z | b2), _ | ⟨(w | b3), t⟩⟩⟩ <;> rfl

theorem utf8Decode_append (c : Char) (t2 : List Tok) :
    ∀ (n : Nat) (t1 : List Tok) (d : Str), t1.length ≤ n →
      utf8Decode (t1 ++ Tok.lit c :: t2) = some d →
      ∃ d1 d2, utf8Decode t1 = some d1 ∧ utf8Decode t2 = some d2 ∧ d = d1 ++ c :: d2 := by
  intro n
  induction n using Nat.strong_induction_on with
  | _ n ih =>
    intro t1 d hlen h
    rcases t1 with _ | ⟨(x | b), t⟩
    · rw [List.nil_append, utf8Decode_lit, Option.map_eq_some'] at h
      obtain ⟨d2, h1, h2⟩ := h
      exact ⟨[], d2, rfl, h1, by simp [← h2]⟩
    · rw [List.cons_append, utf8Decode_lit, Option.map_eq_some'] at h
      obtain ⟨d0, h1, h2⟩ := h
      simp only [List.length_cons] at hlen
      obtain ⟨d1, d2, e1, e2, e3⟩ := ih (n - 1) (by omega) t d0 (by omega) h1
      exact ⟨x :: d1, d2, by rw [utf8Decode_lit, e1]; rfl, e2, by simp [← h2, e3]⟩
    · rw [List.cons_append, utf8Decode_oct] at h
      simp only [List.length_cons] at hlen
      split_ifs at h with hb1 hb2 hb3 hb4 hb5
      · rw [Option.map_eq_some'] at h
        obtain ⟨d0, h1, h2⟩ := h
        obtain ⟨d1, d2, e1, e2, e3⟩ := ih (n - 1) (by omega) t d0 (by omega) h1
        refine ⟨Char.ofNat b :: d1, d2, ?_, e2, by simp [← h2, e3]⟩
        rw [utf8Decode_oct]; simp [hb1, e1]
      · rcases t with _ | ⟨(y | b1), t⟩
        · simp at h
        · simp at h
        · simp only [List.cons_append] at h
          cases hs : scalar2 b b1 with
          | none => simp [hs] at h
          | some v =>
            simp only [hs, Option.map_eq_some'] at h
            obtain ⟨d0, h1, h2⟩ := h
            simp only [List.length_cons] at hlen
            obtain ⟨d1, d2, e1, e2, e3⟩ := ih (n - 2) (by omega) t d0 (by omega) h1
            refine ⟨v :: d1, d2, ?_, e2, by simp [← h2, e3]⟩
            rw [utf8Decode_oct]; simp [hb1, hb2, hb3, hs, e1]
      · rcases t with _ | ⟨(y | b1), _ | ⟨(z | b2), t⟩⟩ <;>
          first | (simp at h; done) | skip
        · simp only [List.cons_append] at h
          cases hs : scalar3 b b1 b2 with
          | none => simp [hs] at h
          | some v =>
            simp only [hs, Option.map_eq_some'] at h
            obtain ⟨d0, h1, h2⟩ := h
            simp only [List.length_cons] at hlen
            obtain ⟨d1, d2, e1, e2, e3⟩ := ih (n - 3) (by omega) t d0 (by omega) h1
            refine ⟨v :: d1, d2, ?_, e2, by simp [← h2, e3]⟩
            rw [utf8Decode_oct]; simp [hb1, hb2, hb3, hb4, hs, e1]
      · rcases t with _ | ⟨(y | b1), _ | ⟨(z | b2), _ | ⟨(w | b3), t⟩⟩⟩ <;>
          first | (simp at h; done) | skip
        · simp only [List.cons_append] at h
          cases hs : scalar4 b b1 b2 b3 with
          | none => simp [hs] at h
          | some v =>
            simp only [hs, Option.map_eq_some'] at h
            obtain ⟨d0, h1, h2⟩ := h
            simp only [List.length_cons] at hlen
            obtain ⟨d1, d2, e1, e2, e3⟩ := ih (n - 4) (by omega) t d0 (by omega) h1
            refine ⟨v :: d1, d2, ?_, e2, by simp [← h2, e3]⟩
            rw [utf8Decode_oct]; simp [hb1, hb2, hb3, hb4, hb5, hs, e1]

/-! ## Strings: the `.mp3` suffix -/

theorem toLower_eq (c x : Char) (h : c.toLower = x) :
    c = x ∨ (65 ≤ c.toNat ∧ c.toNat ≤ 90 ∧ x = Char.ofNat (c.toNat + 32)) := by
  unfold Char.toLower at h
  dsimp only at h
  split_ifs at h with hr
  · exact Or.inr ⟨hr.1, hr.2, h.symm⟩
  · exact Or.inl h

theorem toLower_eq_dot (c : Char) (h : c.toLower = '.') : c = '.' := by
  rcases toLower_eq c '.' h with h | ⟨h1, h2, h3⟩
  · exact h
  · exfalso
    generalize c.toNat = n at h1 h2 h3
    interval_cases n <;> exact absurd h3 (by decide)

theorem toLower_plain (c x : Char) (h : c.toLower = x) (hx : x = 'm' ∨ x = 'p' ∨ x = '3') :
    c ≠ '%' ∧ isPathSep c = false := by
  rcases toLower_eq c x h with h | ⟨h1, h2, _⟩
  · subst h
    rcases hx with rfl | rfl | rfl <;> decide
  · constructor
    · rintro rfl
      exact absurd h1 (by decide)
    · cases hs : isPathSep c with
      | false => rfl
      | true =>
        exfalso
        simp only [isPathSep, Bool.or_eq_true, beq_iff_eq] at hs
        rcases hs with rfl | rfl
        · exact absurd h1 (by decide)
        · exact absurd h2 (by decide)

theorem hasMp3Suffix_split (s : Str) (h : hasMp3Suffix s = true) :
    ∃ pre c1 c2 c3, s = pre ++ ['.', c1, c2, c3] ∧ toLowerCase ['.', c1, c2, c3] = ".mp3".toList ∧
      (∀ c ∈ [c1, c2, c3], c ≠ '%' ∧ isPathSep c = false) := by
  unfold hasMp3Suffix endsWith at h
  rw [List.isSuffixOf_iff_suffix] at h
  obtain ⟨t, ht⟩ := h
  unfold toLowerCase at ht
  obtain ⟨l1, l2, hs, -, h2⟩ := List.map_eq_append_iff.mp ht.symm
  rcases l2 with _ | ⟨c0, _ | ⟨c1, _ | ⟨c2, _ | ⟨c3, _ | ⟨c4, l⟩⟩⟩⟩⟩ <;>
    first
      | (exfalso; have hl := congrArg List.length h2; simp at hl; done)
      | skip
  have e : ".mp3".toList = ['.', 'm', 'p', '3'] := rfl
  rw [e] at h2
  simp only [List.map_cons, List.map_nil, List.cons.injEq, and_true] at h2
  obtain ⟨h0, h1, h2, h3⟩ := h2
  have := toLower_eq_dot c0 h0
  subst this
  refine ⟨l1, c1, c2, c3, hs, ?_, ?_⟩
  · simp [toLowerCase, h1, h2, h3, e]
  · intro c hc
    simp only [List.mem_cons, List.mem_singleton, List.not_mem_nil, or_false] at hc
    rcases hc with rfl | rfl | rfl
    · exact toLower_plain _ _ h1 (Or.inl rfl)
    · exact toLower_plain _ _ h2 (Or.inr (Or.inl rfl))
    · exact toLower_plain _ _ h3 (Or.inr (Or.inr rfl))

theorem decodeURIComponent_append_plain (pre : Str) (c1 c2 c3 : Char)
    (hp : ∀ c ∈ [c1, c2, c3], c ≠ '%' ∧ isPathSep c = false) (d : Str)
    (h : decodeURIComponent (pre ++ ['.', c1, c2, c3]) = some d) :
    ∃ d1, decodeURIComponent pre = some d1 ∧ d = d1 ++ ['.', c1, c2, c3] := by
  have h1 := (hp c1 (by simp)).1
  have h2 := (hp c2 (by simp)).1
  have h3 := (hp c3 (by simp)).1
  unfold decodeURIComponent at h
  cases hu : unescape (pre ++ ['.', c1, c2, c3]) with
  | none => simp [hu] at h
  | some ts =>
    rw [hu] at h
    dsimp only at h
    obtain ⟨t1, t2, e1, e2, e3⟩ :=
      unescape_append '.' (by decide) (by decide) [c1, c2, c3] pre.length pre ts (le_refl _) hu
    have e2' : unescape [c1, c2, c3] = some [Tok.lit c1, Tok.lit c2, Tok.lit c3] := by
      rw [unescape_cons_lit c1 h1, unescape_cons_lit c2 h2, unescape_cons_lit c3 h3]
      rfl
    rw [e2'] at e2
    cases e2
    subst e3
    obtain ⟨d1, d2, f1, f2, f3⟩ := utf8Decode_append '.' _ t1.length t1 d (le_refl _) h
    have f2' : utf8Decode [Tok.lit c1, Tok.lit c2, Tok.lit c3] = some [c1, c2, c3] := rfl
    rw [f2'] at f2
    cases f2
    refine ⟨d1, ?_, f3⟩
    unfold decodeURIComponent
    rw [e1]
    exact f1

theorem hasMp3Suffix_append (l suf : Str) (h : toLowerCase suf = ".mp3".toList) :
    hasMp3Suffix (l ++ suf) = true := by
  unfold hasMp3Suffix endsWith
  rw [List.isSuffixOf_iff_suffix]
  unfold toLowerCase at h ⊢
  rw [List.map_append, h]
  exact List.suffix_append _ _

theorem lastPathSegment_of_split (raw decoded : Str) (init : List Str) (name : Str)
    (hraw : raw ≠ []) (hd : decodeURIComponent raw = some decoded)
    (hs : split isPathSep decoded = init ++ [name]) (hn : name ≠ []) :
    lastPathSegment raw = some name := by
  unfold lastPathSegment
  rw [if_neg hraw, hd]
  dsimp only
  rw [hs, List.filter_append]
  have : List.filter (fun p => decide (p ≠ [])) [name] = [name] := by simp [hn]
  rw [this]
  simp

theorem lastPathSegment_mp3 (raw decoded : Str) (hm : hasMp3Suffix raw = true)
    (hd : decodeURIComponent raw = some decoded) :
    ∃ name, lastPathSegment raw = some name ∧ name ≠ [] ∧
      (split isPathSep decoded).getLast? = some name ∧ hasMp3Suffix name = true := by
  obtain ⟨pre, c1, c2, c3, hs, hl, hp⟩ := hasMp3Suffix_split raw hm
  subst hs
  obtain ⟨d1, -, hd1⟩ := decodeURIComponent_append_plain pre c1 c2 c3 hp decoded hd
  have hsep : ∀ c ∈ ['.', c1, c2, c3], isPathSep c = false := by
    intro c hc
    rcases List.mem_cons.mp hc with rfl | hc
    · decide
    · exact (hp c hc).2
  obtain ⟨init, l, -, h2⟩ := split_append_no_sep isPathSep d1 _ hsep
  rw [← hd1] at h2
  refine ⟨l ++ ['.', c1, c2, c3], ?_, by simp, ?_, hasMp3Suffix_append _ _ hl⟩
  · exact lastPathSegment_of_split _ decoded init _ (by simp) hd h2 (by simp)
  · rw [h2]; simp

/-! ## Folder discovery -/

theorem foldl_setAdd (l acc : List Str) :
    l.foldl setAdd acc = acc ++ (firstOccurrences l).filter (fun y => y ∉ acc) := by
  induction l generalizing acc with
  | nil => simp [firstOccurrences]
  | cons x xs ih =>
    rw [List.foldl_cons, ih]
    by_cases hx : x ∈ acc
    · simp only [setAdd, hx, if_true, firstOccurrences, List.filter_cons, decide_not,
        decide_True, Bool.not_true, Bool.false_eq_true, if_false, List.filter_filter]
      congr 1
      apply List.filter_congr
      intro y _
      by_cases hy : y ∈ acc
      · simp [hy]
      · have : y ≠ x := fun e => hy (e ▸ hx)
        simp [hy, this]
    · simp only [setAdd, hx, if_false, firstOccurrences, List.filter_cons, decide_not,
        decide_False, Bool.not_false, if_true, List.filter_filter, List.append_assoc,
        List.singleton_append]
      congr 2
      apply List.filter_congr
      intro y _
      by_cases hy : y ∈ acc <;> by_cases hyx : y = x <;> simp [hy, hyx]

theorem arrayFromSet_eq (l : List Str) : arrayFromSet l = firstOccurrences l := by
  unfold arrayFromSet
  rw [foldl_setAdd]
  simp

theorem firstOccurrences_sublist (l : List Str) : (firstOccurrences l).Sublist l := by
  induction l with
  | nil => exact List.Sublist.slnil
  | cons x xs ih => exact ((List.filter_sublist _).trans ih).cons₂ x

theorem firstOccurrences_nodup (l : List Str) : (firstOccurrences l).Nodup := by
  induction l with
  | nil => exact List.nodup_nil
  | cons x xs ih =>
    rw [firstOccurrences, List.nodup_cons]
    exact ⟨by simp [List.mem_filter], ih.filter _⟩

theorem segmentList_cons_none (rest : Anchors) :
    segmentList (none :: rest) = [] :: segmentList rest := by
  unfold segmentList
  rw [List.filter_cons, if_pos (by decide), List.filterMap_cons]

theorem segmentList_cons_parent (rest : Anchors) :
    segmentList (some "../".toList :: rest) = segmentList rest := by
  unfold segmentList
  rw [List.filter_cons, if_neg (by decide)]

theorem segmentList_cons_some (href : Str) (rest : Anchors) (hne : href ≠ "../".toList)
    (x : Str) (hl : lastPathSegment href = some x) :
    segmentList (some href :: rest) = x :: segmentList rest := by
  unfold segmentList
  have hd : decide (some href ≠ some "../".toList) = true :=
    decide_eq_true (fun e => hne (Option.some.inj e))
  rw [List.filter_cons, if_pos hd, List.filterMap_cons]
  dsimp only
  rw [hl]

theorem segmentList_cons_throw (href : Str) (rest : Anchors)
    (hl : lastPathSegment href = none) :
    segmentList (some href :: rest) = segmentList rest := by
  unfold segmentList
  rw [List.filter_cons]
  split_ifs
  · rw [List.filterMap_cons]
    dsimp only
    rw [hl]
  · rfl

theorem collectFolders_eq (anchors : Anchors) (list : List Str)
    (h : collectFolders anchors = some list) :
    list = (segmentList anchors).filter isFolderName := by
  induction anchors generalizing list with
  | nil => simp [collectFolders] at h; simp [h, segmentList]
  | cons a rest ih =>
    cases a with
    | none =>
      rw [collectFolders] at h
      rw [ih list h, segmentList_cons_none, List.filter_cons, if_neg (by decide)]
    | some href =>
      rw [collectFolders] at h
      split_ifs at h with hskip
      · rw [ih list h]
        rcases hskip with rfl | rfl
        · rw [segmentList_cons_some [] rest (by decide) [] (by decide), List.filter_cons,
            if_neg (by decide)]
        · rw [segmentList_cons_parent]
      · have hne : href ≠ "../".toList := fun e => hskip (Or.inr e)
        cases hl : lastPathSegment href with
        | none => simp [hl] at h
        | some candidate =>
          simp only [hl] at h
          rw [segmentList_cons_some href rest hne candidate hl, List.filter_cons]
          split_ifs at h with hk
          · rw [Option.map_eq_some'] at h
            obtain ⟨l0, h1, h2⟩ := h
            have : isFolderName candidate = true := by simpa [isFolderName] using hk
            rw [← h2, ih l0 h1, if_pos this]
          · have : ¬ isFolderName candidate = true := by simpa [isFolderName] using hk
            rw [ih list h, if_neg this]

theorem lastPathSegment_of_decoded (href : Str) (h : decodeURIComponent href ≠ none) :
    ∃ x, lastPathSegment href = some x := by
  unfold lastPathSegment
  split_ifs
  · exact ⟨_, rfl⟩
  · cases hd : decodeURIComponent href with
    | none => exact absurd hd h
    | some d => exact ⟨_, rfl⟩

theorem collectFolders_of_decoded (anchors : Anchors)
    (h : ∀ href, some href ∈ anchors → decodeURIComponent href ≠ none) :
    ∃ list, collectFolders anchors = some list := by
  induction anchors with
  | nil => exact ⟨[], rfl⟩
  | cons a rest ih =>
    obtain ⟨l0, h0⟩ := ih (fun href hm => h href (List.mem_cons_of_mem _ hm))
    cases a with
    | none => exact ⟨l0, by rw [collectFolders, h0]⟩
    | some href =>
      obtain ⟨x, hx⟩ := lastPathSegment_of_decoded href (h href (List.mem_cons_self _ _))
      rw [collectFolders, hx, h0]
      dsimp only
      split_ifs <;> exact ⟨_, rfl⟩

theorem lastPathSegment_no_sep (href x : Str) (h : lastPathSegment href = some x) :
    ∀ c ∈ x, isPathSep c = false := by
  unfold lastPathSegment at h
  split_ifs at h with h0
  · cases h; intro c hc; simp at hc
  · cases hd : decodeURIComponent href with
    | none => simp [hd] at h
    | some d =>
      simp only [hd, Option.some.injEq] at h
      split_ifs at h with hp
      · intro c hc
        have hmem := List.getLastD_mem_cons (List.filter (fun p => decide (p ≠ [])) (split isPathSep d)) []
        rw [h] at hmem
        rcases List.mem_cons.mp hmem with rfl | hm
        · simp at hc
        · exact split_no_sep isPathSep d x (List.mem_of_mem_filter hm) c hc
      · subst h; intro c hc; simp at hc

theorem fetchAlbumFolders_eq (status : Nat) (anchors : Anchors) :
    fetchAlbumFolders (.response status anchors) = [] ∨
      fetchAlbumFolders (.response status anchors) =
        firstOccurrences ((segmentList anchors).filter isFolderName) := by
  unfold fetchAlbumFolders
  dsimp only
  cases hc : collectFolders anchors with
  | none => exact Or.inl rfl
  | some list =>
    right
    dsimp only
    rw [arrayFromSet_eq, collectFolders_eq anchors list hc]

theorem mem_segmentList (anchors : Anchors) (x : Str) (h : x ∈ segmentList anchors) :
    x = [] ∨ ∃ href, some href ∈ anchors ∧ href ≠ "../".toList ∧ lastPathSegment href = some x := by
  unfold segmentList at h
  rw [List.mem_filterMap] at h
  obtain ⟨a, ha, hx⟩ := h
  rw [List.mem_filter] at ha
  cases a with
  | none => left; simpa using hx.symm
  | some href =>
    right
    refine ⟨href, ha.1, ?_, hx⟩
    intro e
    subst e
    simp at ha

/-- The part of the Entry Name invariant that holds for every album key: it
is not empty, has no `.mp3` suffix, contains neither `/` nor `\` (so no
trailing slash), and is the last path segment of an anchor other than `../`. -/
theorem fetchAlbumFolders_key_shape (status : Nat) (anchors : Anchors) (key : Str)
    (h : key ∈ fetchAlbumFolders (.response status anchors)) :
    key ≠ [] ∧ hasMp3Suffix key = false ∧ (∀ c ∈ key, isPathSep c = false) ∧
      ∃ href, some href ∈ anchors ∧ href ≠ "../".toList ∧ lastPathSegment href = some key := by
  rcases fetchAlbumFolders_eq status anchors with e | e
  · rw [e] at h; simp at h
  · rw [e] at h
    have h1 := (firstOccurrences_sublist _).subset h
    rw [List.mem_filter] at h1
    obtain ⟨hseg, hf⟩ := h1
    simp only [isFolderName, Bool.and_eq_true, Bool.not_eq_true', decide_eq_true_eq] at hf
    rcases mem_segmentList anchors key hseg with h0 | ⟨href, hm, hne, hl⟩
    · exact absurd h0 hf.2
    · exact ⟨hf.2, hf.1, lastPathSegment_no_sep href key hl, href, hm, hne, hl⟩

/-- The folders are a duplicate-free subsequence of `segmentList`, and its
first occurrences of folder names when every href percent-decodes. -/
theorem fetchAlbumFolders_segmentList (status : Nat) (anchors : Anchors) :
    (fetchAlbumFolders (.response status anchors)).Nodup ∧
      (fetchAlbumFolders (.response status anchors)).Sublist (segmentList anchors) ∧
      ((∀ href, some href ∈ anchors → decodeURIComponent href ≠ none) →
        fetchAlbumFolders (.response status anchors) =
          firstOccurrences ((segmentList anchors).filter isFolderName)) ∧
      fetchAlbumFolders (.response status rootListingExample) = ["ncs".toList, "cs".toList] := by
  refine ⟨?_, ?_, ?_, ?_⟩
  · rcases fetchAlbumFolders_eq status anchors with e | e <;> rw [e]
    · exact List.nodup_nil
    · exact firstOccurrences_nodup _
  · rcases fetchAlbumFolders_eq status anchors with e | e <;> rw [e]
    · exact List.nil_sublist _
    · exact (firstOccurrences_sublist _).trans (List.filter_sublist _)
  · intro hd
    obtain ⟨list, hl⟩ := collectFolders_of_decoded anchors hd
    unfold fetchAlbumFolders
    dsimp only
    rw [hl]
    dsimp only
    rw [arrayFromSet_eq, collectFolders_eq anchors list hl]
  · show fetchAlbumFolders (.response 0 rootListingExample) = _
    decide

/-! ## Song discovery -/

theorem mp3Hrefs_cons_none (rest : Anchors) : mp3Hrefs (none :: rest) = mp3Hrefs rest := rfl

theorem mp3Hrefs_cons_some (raw : Str) (rest : Anchors) :
    mp3Hrefs (some raw :: rest) =
      if hasMp3Suffix raw then raw :: mp3Hrefs rest else mp3Hrefs rest := by
  unfold mp3Hrefs
  rw [List.filterMap_cons]
  dsimp only [id]
  rw [List.filter_cons]

theorem collectSongs_cons_some (raw : Str) (rest : Anchors) :
    collectSongs (some raw :: rest) =
      if hasMp3Suffix raw then
        match lastPathSegment raw with
        | none => none
        | some filenameDecoded =>
          (collectSongs rest).map
            ({ decoded := filenameDecoded, encoded := encodeURIComponent filenameDecoded } :: ·)
      else collectSongs rest := by
  rw [collectSongs]
  split_ifs with h0 hm hm
  · subst h0; exact absurd hm (by decide)
  · rfl
  · rfl
  · rfl

/-- One song per `.mp3` href, in document order, named by `lastPathSegment`. -/
theorem collectSongs_of_decoded (anchors : Anchors)
    (h : ∀ raw ∈ mp3Hrefs anchors, decodeURIComponent raw ≠ none) :
    ∃ songs, collectSongs anchors = some songs ∧
      List.Forall₂ (fun raw song => lastPathSegment raw = some song.decoded ∧
        song.encoded = encodeURIComponent song.decoded) (mp3Hrefs anchors) songs := by
  induction anchors with
  | nil => exact ⟨[], rfl, List.Forall₂.nil⟩
  | cons a rest ih =>
    cases a with
    | none => exact ih h
    | some raw =>
      rw [mp3Hrefs_cons_some] at h ⊢
      rw [collectSongs_cons_some]
      split_ifs at h ⊢ with hm
      · obtain ⟨songs, hs, hf⟩ := ih (fun r hr => h r (List.mem_cons_of_mem _ hr))
        cases hd : decodeURIComponent raw with
        | none => exact absurd hd (h raw (List.mem_cons_self _ _))
        | some decoded =>
          obtain ⟨name, hn, -⟩ := lastPathSegment_mp3 raw decoded hm hd
          rw [hn, hs]
          exact ⟨_, rfl, List.Forall₂.cons ⟨hn, rfl⟩ hf⟩
      · exact ih h

/-- An `.mp3` href that does not percent-decode aborts the whole loop. -/
theorem collectSongs_of_throw (anchors : Anchors)
    (h : ∃ raw ∈ mp3Hrefs anchors, decodeURIComponent raw = none) :
    collectSongs anchors = none := by
  induction anchors with
  | nil => obtain ⟨raw, hr, -⟩ := h; simp [mp3Hrefs] at hr
  | cons a rest ih =>
    cases a with
    | none => exact ih h
    | some raw =>
      rw [mp3Hrefs_cons_some] at h
      rw [collectSongs_cons_some]
      obtain ⟨r, hr, hd⟩ := h
      split_ifs at hr ⊢ with hm
      · rcases List.mem_cons.mp hr with rfl | hr
        · have hne : r ≠ [] := by rintro rfl; exact absurd hm (by decide)
          have : lastPathSegment r = none := by
            unfold lastPathSegment
            rw [if_neg hne, hd]
          rw [this]
        · rw [ih ⟨r, hr, hd⟩]
          cases lastPathSegment raw <;> rfl
      · exact ih ⟨r, hr, hd⟩

/-- C5 as stated fails: on the anchors "cover.jpg", "Track%20One.mp3",
"Track%20Two.MP3" loadSongs keeps two songs, but their decoded names keep the
suffix: "Track One.mp3" and "Track Two.MP3", not "Track One" and "Track Two". -/
theorem C5_decoded_names_counterexample :
    (loadSongs (initial ⟨none, none, none⟩) "ncs".toList
        (.response 200 albumListingExample)).songs.map (fun s => s.decoded) =
      ["Track One.mp3".toList, "Track Two.MP3".toList] ∧
    (loadSongs (initial ⟨none, none, none⟩) "ncs".toList
        (.response 200 albumListingExample)).songs.map (fun s => s.decoded) ≠
      ["Track One".toList, "Track Two".toList] := by
  decide

/-- C5 amended: on the example listing loadSongs keeps two songs, decoded
"Track One.mp3" and "Track Two.MP3" in that order; in general, when every href
with the .mp3 suffix (any letter case) percent-decodes, songs has one entry
per such href, in document order, whose decoded name is the last path segment
of the href and whose encoded name is its percent-encoding, and nothing else;
when one of them does not decode, songs is left empty. -/
theorem C5_songs_amended (s : Player) (album : Str) (status : Nat) (anchors : Anchors) :
    ((∀ raw ∈ mp3Hrefs anchors, decodeURIComponent raw ≠ none) →
      List.Forall₂ (fun raw song => lastPathSegment raw = some song.decoded ∧
          song.encoded = encodeURIComponent song.decoded)
        (mp3Hrefs anchors) (loadSongs s album (.response status anchors)).songs) ∧
    ((∃ raw ∈ mp3Hrefs anchors, decodeURIComponent raw = none) →
      (loadSongs s album (.response status anchors)).songs = []) ∧
    (loadSongs s album (.response status albumListingExample)).songs.map (fun x => x.decoded) =
      ["Track One.mp3".toList, "Track Two.MP3".toList] := by
  refine ⟨?_, ?_, ?_⟩
  · intro h
    obtain ⟨songs, hs, hf⟩ := collectSongs_of_decoded anchors h
    rw [loadSongs_songs]
    dsimp only
    rw [hs]
    exact hf
  · intro h
    rw [loadSongs_songs]
    dsimp only
    rw [collectSongs_of_throw anchors h]
    rfl
  · rw [loadSongs_songs]
    show List.map (fun x => x.decoded) ((collectSongs albumListingExample).getD []) = _
    decide

/-- Witness for the amended C5: a listing with a cover image, a song under a
backslash path and an upper-case suffix. -/
theorem C5_songs_amended_witness :
    List.Forall₂ (fun raw song => lastPathSegment raw = some song.decoded ∧
        song.encoded = encodeURIComponent song.decoded)
      (mp3Hrefs [some "cover.jpg".toList, none, some "%5Cmusic%5Cncs%5CA%20b.mp3".toList,
        some "c.MP3".toList])
      (loadSongs (threeSongs 2) "ncs".toList (.response 200
        [some "cover.jpg".toList, none, some "%5Cmusic%5Cncs%5CA%20b.mp3".toList,
          some "c.MP3".toList])).songs :=
  (C5_songs_amended (threeSongs 2) "ncs".toList 200 _).1 (by
    intro raw hr
    have e : mp3Hrefs [some "cover.jpg".toList, none, some "%5Cmusic%5Cncs%5CA%20b.mp3".toList,
        some "c.MP3".toList] = ["%5Cmusic%5Cncs%5CA%20b.mp3".toList, "c.MP3".toList] := by decide
    rw [e] at hr
    simp only [List.mem_cons, List.mem_singleton, List.not_mem_nil, or_false] at hr
    rcases hr with rfl | rfl <;> decide)

/-- C6 as stated fails: the href "%.mp3" ends in the .mp3 suffix, yet
decodeURIComponent throws on it, so lastPathSegment yields no filename (and
loadSongs, catching the error, ends with no songs). -/
theorem C6_malformed_escape_counterexample :
    hasMp3Suffix "%.mp3".toList = true ∧ lastPathSegment "%.mp3".toList = none ∧
      (loadSongs (initial ⟨none, none, none⟩) "ncs".toList
        (.response 200 [some "%.mp3".toList])).songs = [] := by
  decide

/-- C6 amended: for every raw href that ends in ".mp3" in any letter case and
that decodeURIComponent accepts, lastPathSegment yields a non-empty filename,
equal to the last piece of the percent-decoded href split on slash and
backslash (and it still ends in the suffix). -/
theorem C6_filename_amended (raw decoded : Str) (hm : hasMp3Suffix raw = true)
    (hd : decodeURIComponent raw = some decoded) :
    ∃ name, lastPathSegment raw = some name ∧ name ≠ [] ∧
      (split isPathSep decoded).getLast? = some name ∧ hasMp3Suffix name = true :=
  lastPathSegment_mp3 raw decoded hm hd

/-- Witness for the amended C6: an encoded backslash path with an upper-case
suffix. -/
theorem C6_filename_amended_witness :
    ∃ name, lastPathSegment "%5Cmusic%5CTrack%20Two.MP3".toList = some name ∧ name ≠ [] ∧
      (split isPathSep [Char.ofNat 92, 'm', 'u', 's', 'i', 'c', Char.ofNat 92,
        'T', 'r', 'a', 'c', 'k', ' ', 'T', 'w', 'o', '.', 'M', 'P', '3']).getLast? = some name ∧
      hasMp3Suffix name = true :=
  C6_filename_amended "%5Cmusic%5CTrack%20Two.MP3".toList _ (by decide) (by decide)

/-! ## Time display -/

theorem padStart_twoDigits (k : Nat) (h : k < 100) :
    padStart (Nat.toDigits 10 k) 2 '0' = twoDigits k := by
  interval_cases k <;> rfl

theorem padStart_length (s : Str) (c : Char) : 2 ≤ (padStart s 2 c).length := by
  unfold padStart
  rw [List.length_append, List.length_replicate]
  omega

/-- The integer quotient used by `mathFloor` is the floor of the decimal. -/
theorem mathFloor_is_floor (mantissa : Int) (scale : Nat) :
    mantissa / (10 : Int) ^ scale = ⌊(mantissa : ℚ) / ((10 ^ scale : Nat) : ℚ)⌋ := by
  rw [Rat.floor_intCast_div_natCast]
  push_cast
  rfl

theorem numberToString_natCast (n : Nat) :
    numberToString (.int (n : Int)) = Nat.toDigits 10 n := by
  show (if (n : Int) < 0 then '-' :: Nat.toDigits 10 (n : Int).natAbs
    else Nat.toDigits 10 (n : Int).toNat) = _
  rw [if_neg (by omega), Int.toNat_natCast]

theorem formatTime_whole (n : Nat) (mantissa : Int) (scale : Nat)
    (hq : mantissa / (10 : Int) ^ scale = (n : Int)) (hm : mantissa ≠ 0) :
    formatTime (.finite mantissa scale) =
      padStart (Nat.toDigits 10 (n / 60)) 2 '0' ++ ':' :: twoDigits (n % 60) := by
  have h1 : (n : Int) / 60 = ((n / 60 : Nat) : Int) := by omega
  have h2 : Int.tmod (n : Int) 60 = ((n % 60 : Nat) : Int) := by
    rw [Int.tmod_eq_emod (by omega) (by omega)]; omega
  unfold formatTime
  simp only [JsNum.not, JsNum.isNaN, hm, decide_False, Bool.or_self, Bool.false_eq_true,
    if_false, mathFloor, hq, floorDiv60, rem60, h1, h2, numberToString_natCast]
  rw [padStart_twoDigits (n % 60) (by omega), List.append_assoc]
  rfl

theorem formatTime_nonneg (mantissa : Int) (scale : Nat) (h0 : 0 ≤ mantissa) :
    formatTime (.finite mantissa scale) =
      padStart (Nat.toDigits 10 ((mantissa / (10 : Int) ^ scale).toNat / 60)) 2 '0' ++
        ':' :: twoDigits ((mantissa / (10 : Int) ^ scale).toNat % 60) := by
  by_cases hm : mantissa = 0
  · subst hm
    rw [Int.zero_ediv]
    rfl
  · have hq : 0 ≤ mantissa / (10 : Int) ^ scale := Int.ediv_nonneg h0 (by positivity)
    exact formatTime_whole _ mantissa scale (Int.toNat_of_nonneg hq).symm hm

/-- C11 as stated fails: positive infinity is a non-negative Number (it is the
duration of an unbounded stream) and passes both guards of formatTime, which
then returns "Infinity:NaN", not minutes and seconds with seconds below 60. -/
theorem C11_infinity_counterexample :
    formatTime .posInf = "Infinity:NaN".toList ∧
      ¬ ∃ (mm : Str) (ss : Nat), ss < 60 ∧ formatTime .posInf = mm ++ ':' :: twoDigits ss := by
  have h : formatTime .posInf = "Infinity:NaN".toList := by decide
  refine ⟨h, ?_⟩
  rintro ⟨mm, ss, -, e⟩
  rw [h] at e
  have e2 := congrArg List.reverse e
  have e3 : "Infinity:NaN".toList.reverse = "NaN:ytinifnI".toList := by decide
  rw [e3] at e2
  simp only [twoDigits, List.reverse_append, List.reverse_cons, List.reverse_nil,
    List.nil_append, List.cons_append, List.append_assoc] at e2
  have e4 : "NaN:ytinifnI".toList = 'N' :: 'a' :: 'N' :: ":ytinifnI".toList := rfl
  rw [e4] at e2
  injection e2 with _ e2
  injection e2 with _ e2
  injection e2 with e5 _
  exact absurd e5 (by decide)

/-- C11 amended: for every finite non-negative number of seconds, written as
the decimal mantissa / 10 ^ scale, whose whole part n is below 2 ^ 53,
formatTime returns the decimal digits of n div 60 padded with zeros to at least
two characters, a colon, and the two digits of n mod 60, which is below 60;
when n div 60 is below 100 the minutes are exactly two digits.  It returns
"00:00" for 0, for an unset argument and for NaN, and "01:05" for 65.7. -/
theorem C11_formatTime_amended (mantissa : Int) (scale : Nat) (h0 : 0 ≤ mantissa)
    (_hsafe : mantissa / (10 : Int) ^ scale < 2 ^ 53) :
    formatTime (.finite mantissa scale) =
        padStart (Nat.toDigits 10 ((mantissa / (10 : Int) ^ scale).toNat / 60)) 2 '0' ++
          ':' :: twoDigits ((mantissa / (10 : Int) ^ scale).toNat % 60) ∧
      (mantissa / (10 : Int) ^ scale).toNat % 60 < 60 ∧
      2 ≤ (padStart (Nat.toDigits 10 ((mantissa / (10 : Int) ^ scale).toNat / 60)) 2 '0').length ∧
      ((mantissa / (10 : Int) ^ scale).toNat / 60 < 100 →
        padStart (Nat.toDigits 10 ((mantissa / (10 : Int) ^ scale).toNat / 60)) 2 '0' =
          twoDigits ((mantissa / (10 : Int) ^ scale).toNat / 60)) ∧
      formatTime (.finite 0 scale) = "00:00".toList ∧
      formatTime .undefined = "00:00".toList ∧
      formatTime .nan = "00:00".toList ∧
      formatTime (.finite 657 1) = "01:05".toList :=
  ⟨formatTime_nonneg mantissa scale h0, Nat.mod_lt _ (by decide), padStart_length _ _,
    padStart_twoDigits _, rfl, rfl, rfl, by decide⟩

/-- Witness for the amended C11: 3725.25 seconds are 62 minutes and 5 seconds. -/
theorem C11_formatTime_amended_witness :
    formatTime (.finite 372525 2) = "62:05".toList :=
  (C11_formatTime_amended 372525 2 (by decide) (by decide)).1.trans (by decide)

/-! ## Album cards -/

theorem escapeChar_safe (c x : Char) (hx : x ∈ escapeChar c) :
    x ≠ '<' ∧ x ≠ '>' ∧ x ≠ Char.ofNat 34 ∧ x ≠ Char.ofNat 39 := by
  unfold escapeChar at hx
  split_ifs at hx with h1 h2 h3 h4 h5
  · revert x; decide
  · revert x; decide
  · revert x; decide
  · revert x; decide
  · revert x; decide
  · rw [List.mem_singleton] at hx
    subst hx
    exact ⟨h2, h3, h4, h5⟩

/-- What `escapeHtml` returns for a string has none of the characters that open
or close a tag or an attribute value. -/
theorem escapeText_safe (s : Str) (x : Char) (hx : x ∈ escapeText s) :
    x ≠ '<' ∧ x ≠ '>' ∧ x ≠ Char.ofNat 34 ∧ x ≠ Char.ofNat 39 := by
  induction s with
  | nil => simp [escapeText] at hx
  | cons c cs ih =>
    rw [escapeText, List.mem_append] at hx
    rcases hx with hx | hx
    · exact escapeChar_safe c x hx
    · exact ih hx

theorem escapeHtml_str (s : Str) : escapeHtml (.str s) = some (escapeText s) := by
  cases s with
  | nil => rfl
  | cons c cs => rfl

/-- For a title and a description that are strings, the card markup holds the
title twice: as it is inside the `alt` attribute, and escaped inside `h2`. -/
theorem cardInnerHTML_str (folder title description : Str) :
    cardInnerHTML folder { title := .str title, description := .str description } =
      some (cardBeforeFolder ++ encodeURIComponent folder ++ cardBeforeAlt ++
        title ++ cardBeforeTitle ++ escapeText title ++ cardBeforeDescription ++
        escapeText description ++ cardEnd) := by
  unfold cardInnerHTML
  simp only [escapeHtml_str]
  rfl

/-- C12 at a failing input: the listing has the folder "jazz" and its descriptor
gives a title that starts with a double quote.  The card markup holds that
title unescaped inside the alt attribute of the image (the quote ends the
attribute value and the script tag follows as markup); only the copy inside
h2 went through escapeHtml. -/
theorem C12_title_raw_in_alt :
    renderAlbumCards (.response 200 [some "jazz/".toList])
        (fun _ => .response 200 (.value (.str breakoutTitle) .undefined)) =
      [{ album := "jazz".toList,
         innerHTML := cardBeforeFolder ++ "jazz".toList ++ cardBeforeAlt ++ breakoutTitle ++
           cardBeforeTitle ++ "&quot;&gt;&lt;script&gt;".toList ++ cardBeforeDescription ++
           cardEnd }] ∧
      Char.ofNat 34 ∈ breakoutTitle ∧ '<' ∈ breakoutTitle := by
  have hf : fetchAlbumFolders (.response 200 [some "jazz/".toList]) = ["jazz".toList] := by
    decide
  have hm : fetchAlbumMetadata "jazz".toList
      (.response 200 (.value (.str breakoutTitle) .undefined)) =
      { title := .str breakoutTitle, description := .str [] } := by decide
  have he : encodeURIComponent "jazz".toList = "jazz".toList := by decide
  have ht : escapeText breakoutTitle = "&quot;&gt;&lt;script&gt;".toList := by decide
  refine ⟨?_, by decide, by decide⟩
  unfold renderAlbumCards
  rw [hf]
  simp only [renderCards]
  rw [hm, cardInnerHTML_str, he, ht]
  simp only [escapeText, List.append_nil]

/-! ## Folder discovery against the specification of the last segment -/

theorem split_ne_nil (p : Char → Bool) (s : Str) : split p s ≠ [] := by
  cases s with
  | nil => simp [split]
  | cons c cs =>
    rw [split]
    split_ifs
    · simp
    · cases split p cs <;> simp

theorem split_append_sep (p : Char → Bool) (d : Str) (c : Char) (hc : p c = true) :
    split p (d ++ [c]) = split p d ++ [[]] := by
  induction d with
  | nil => simp [split, hc]
  | cons x xs ih =>
    rw [List.cons_append, split, split, ih]
    by_cases hx : p x = true
    · simp [hx]
    · rw [if_neg hx, if_neg hx]
      cases hs : split p xs with
      | nil => exact absurd hs (split_ne_nil p xs)
      | cons seg segs => rfl

theorem split_getLastD (p : Char → Bool) (d : Str) :
    (split p d).getLastD [] = (d.reverse.takeWhile (fun c => !p c)).reverse := by
  induction d using List.reverseRecOn with
  | nil => rfl
  | append_singleton xs x ih =>
    rw [List.reverse_append, List.reverse_singleton, List.singleton_append, List.takeWhile_cons]
    by_cases hx : p x = true
    · rw [split_append_sep p xs x hx, List.getLastD_concat]
      simp [hx]
    · obtain ⟨init, l, h1, h2⟩ := split_append_no_sep p xs [x] (by
        intro c hc
        rw [List.mem_singleton] at hc
        subst hc
        simpa using hx)
      rw [h1, List.getLastD_concat] at ih
      rw [h2, List.getLastD_concat, ih]
      simp [hx]

theorem split_filter_getLastD (p : Char → Bool) (d : Str) :
    ((split p d).filter (fun q => decide (q ≠ []))).getLastD [] =
      ((d.reverse.dropWhile p).takeWhile (fun c => !p c)).reverse := by
  induction d using List.reverseRecOn with
  | nil => rfl
  | append_singleton xs x ih =>
    rw [List.reverse_append, List.reverse_singleton, List.singleton_append, List.dropWhile_cons]
    by_cases hx : p x = true
    · rw [split_append_sep p xs x hx, List.filter_append, if_pos hx, ← ih]
      simp
    · obtain ⟨init, l, h1, h2⟩ := split_append_no_sep p xs [x] (by
        intro c hc
        rw [List.mem_singleton] at hc
        subst hc
        simpa using hx)
      have hl := split_getLastD p xs
      rw [h1, List.getLastD_concat] at hl
      rw [h2, List.filter_append, if_neg hx, List.takeWhile_cons]
      have hne : List.filter (fun q => decide (q ≠ [])) [l ++ [x]] = [l ++ [x]] := by simp
      rw [hne, List.getLastD_concat, hl]
      simp [hx]

/-- The function `lastPathSegment` computes the specified last segment of the
percent-decoded href, and throws exactly when the href does not decode. -/
theorem lastPathSegment_eq_lastSegment (href : Str) :
    lastPathSegment href = (decodeURIComponent href).map lastSegment := by
  unfold lastPathSegment
  split_ifs with h0
  · subst h0; rfl
  · cases hd : decodeURIComponent href with
    | none => rfl
    | some decoded =>
      dsimp only [Option.map_some']
      congr 1
      have hsp := split_filter_getLastD isPathSep decoded
      unfold lastSegment
      rw [← hsp]
      split_ifs with hp
      · rfl
      · simp only [ne_eq, Decidable.not_not, List.length_eq_zero] at hp
        rw [hp]
        rfl

theorem segmentList_eq_documentSegments (anchors : Anchors) :
    segmentList anchors = documentSegments anchors := by
  unfold segmentList documentSegments
  congr 1
  funext a
  cases a with
  | none => rfl
  | some href => exact lastPathSegment_eq_lastSegment href

theorem collectFolders_of_throw (anchors : Anchors)
    (h : ∃ href, some href ∈ anchors ∧ decodeURIComponent href = none) :
    collectFolders anchors = none := by
  induction anchors with
  | nil => obtain ⟨href, hm, -⟩ := h; simp at hm
  | cons a rest ih =>
    obtain ⟨href, hm, hd⟩ := h
    rcases List.mem_cons.mp hm with e | hm
    · subst e
      have hl : lastPathSegment href = none := by
        rw [lastPathSegment_eq_lastSegment, hd]; rfl
      have hskip : ¬ (href = [] ∨ href = "../".toList) := by
        rintro (rfl | rfl) <;> exact absurd hd (by decide)
      rw [collectFolders, if_neg hskip, hl]
    · have hr := ih ⟨href, hm, hd⟩
      cases a with
      | none => rw [collectFolders, hr]
      | some h0 =>
        rw [collectFolders, hr]
        split_ifs
        · rfl
        · cases lastPathSegment h0 with
          | none => rfl
          | some candidate =>
            dsimp only
            split_ifs <;> rfl

/-- C4 as stated fails: in the listing "100%/", "ncs/", "cs/" the first href does
not percent-decode, decodeURIComponent throws inside the loop and the catch
returns the empty sequence, although "ncs" and "cs" are last path segments of
anchors other than "../". -/
theorem C4_malformed_href_counterexample :
    fetchAlbumFolders (.response 200 malformedListingExample) = [] ∧
      documentSegments malformedListingExample = ["ncs".toList, "cs".toList] ∧
      decodeURIComponent "100%/".toList = none := by
  decide

/-- C4 amended: for every root listing in which every href percent-decodes,
fetchAlbumFolders returns the last path segments of the anchors other than
"../" that are not empty and do not end in .mp3 (any letter case), with
duplicates removed and first-seen order preserved; when some href does not
percent-decode it returns the empty sequence.  In every case the result has no
repeated name and is a subsequence of the segment list in document order, and
the anchors "../", "ncs/", "cs/", "ncs/" give "ncs", "cs". -/
theorem C4_album_folders_amended (status : Nat) (anchors : Anchors) :
    ((∀ href, some href ∈ anchors → decodeURIComponent href ≠ none) →
        fetchAlbumFolders (.response status anchors) =
          firstOccurrences ((documentSegments anchors).filter isFolderName)) ∧
      ((∃ href, some href ∈ anchors ∧ decodeURIComponent href = none) →
        fetchAlbumFolders (.response status anchors) = []) ∧
      (fetchAlbumFolders (.response status anchors)).Nodup ∧
      (fetchAlbumFolders (.response status anchors)).Sublist (documentSegments anchors) ∧
      fetchAlbumFolders (.response status rootListingExample) = ["ncs".toList, "cs".toList] := by
  have h := fetchAlbumFolders_segmentList status anchors
  rw [segmentList_eq_documentSegments] at h
  refine ⟨h.2.2.1, ?_, h.1, h.2.1, h.2.2.2⟩
  intro ht
  unfold fetchAlbumFolders
  dsimp only
  rw [collectFolders_of_throw anchors ht]

/-- Witness for the amended C4: a listing with a parent anchor, a folder
repeated under an aliasing backslash href, a file and a nested folder. -/
theorem C4_album_folders_amended_witness :
    fetchAlbumFolders (.response 200
        [some "../".toList, some "ncs/".toList, some "a.mp3".toList,
          some "%5Cmusic%5Cncs/".toList, some "/music/lo%20fi/".toList]) =
      firstOccurrences ((documentSegments
        [some "../".toList, some "ncs/".toList, some "a.mp3".toList,
          some "%5Cmusic%5Cncs/".toList, some "/music/lo%20fi/".toList]).filter isFolderName) ∧
    firstOccurrences ((documentSegments
        [some "../".toList, some "ncs/".toList, some "a.mp3".toList,
          some "%5Cmusic%5Cncs/".toList, some "/music/lo%20fi/".toList]).filter isFolderName) =
      ["ncs".toList, "lo fi".toList] :=
  ⟨(C4_album_folders_amended 200 _).1 (by
      intro href hm
      simp only [List.mem_cons, Option.some.injEq, List.mem_singleton, List.not_mem_nil,
        or_false] at hm
      rcases hm with rfl | rfl | rfl | rfl | rfl <;> decide),
    by decide⟩

end SpotifyClone
